import Mathlib

/-!
Shallow embedding of the HSTS/HPKP trust stores of wget2
(src/libwget/hsts.c and src/libwget/hpkp.c).

Hosts and text are modelled as `List Char` (a C string up to its NUL),
byte buffers as `List Nat`, 64-bit signed values as `Int` with the
explicit clamping the C code performs, and the hashmap/vector containers
(whose sources are not part of this repository snapshot) as lists with
the exact comparator functions from the C sources.
-/

set_option maxRecDepth 10000

/-- C `INT64_MAX` = 2^63 - 1. -/
def INT64_MAX : Int := 9223372036854775807

/-- C `INT64_MAX / 2` (truncating division) = 2^62 - 1. -/
def INT64_MAX_HALF : Int := 4611686018427387903

/-- C `isspace` for the ASCII range: space and the characters 9..13. -/
def isspaceChar (c : Char) : Bool :=
  (9 ≤ c.toNat && c.toNat ≤ 13) || c = ' '

/-- Sign-faithful model of C `strcmp` on NUL-terminated strings:
0 iff the strings are equal, negative/positive following byte order. -/
def strcmpChar : List Char → List Char → Int
  | [], [] => 0
  | [], _ :: _ => -1
  | _ :: _, [] => 1
  | a :: as, b :: bs =>
    if a < b then -1 else if b < a then 1 else strcmpChar as bs

/-- Model of C `memcmp` over the first `n` bytes of two buffers. -/
def memcmpN : Nat → List Nat → List Nat → Int
  | 0, _, _ => 0
  | _ + 1, [], [] => 0
  | _ + 1, [], _ :: _ => -1
  | _ + 1, _ :: _, [] => 1
  | n + 1, x :: xs, y :: ys =>
    if x < y then -1 else if y < x then 1 else memcmpN n xs ys

/-! ## HSTS data model (hsts.c) -/

/-- `wget_hsts_t` from hsts.c: one HSTS policy record. -/
structure wget_hsts_t where
  host : List Char
  expires : Int
  created : Int
  maxage : Int
  port : Nat
  include_subdomains : Bool
deriving DecidableEq, Repr

/-- `_compare_hsts` from hsts.c: strcmp on host, then port order. -/
def _compare_hsts (h1 h2 : wget_hsts_t) : Int :=
  let n := strcmpChar h1.host h2.host
  if n ≠ 0 then n
  else if h1.port < h2.port then -1
  else if h2.port < h1.port then 1
  else 0

/-- A lookup key as built on the stack by the C callers of
`wget_hashmap_get`: only `host` and `port` are meaningful. -/
def hstsKey (host : List Char) (port : Nat) : wget_hsts_t :=
  { host := host, port := port, expires := 0, created := 0, maxage := 0,
    include_subdomains := false }

/-- Modelled from the spec: the hashmap container (not in src/) is a
hash-indexed collection looked up through the compare function given at
creation; we model the entry set as a list and `wget_hashmap_get` as the
first entry comparing equal to the key. -/
def wget_hashmap_get_hsts (entries : List wget_hsts_t) (key : wget_hsts_t) :
    Option wget_hsts_t :=
  entries.find? (fun e => _compare_hsts e key = 0)

/-- Modelled from the spec: `wget_hashmap_remove` (not in src/) removes
the entry comparing equal to the key, if any. -/
def wget_hashmap_remove_hsts : List wget_hsts_t → wget_hsts_t → List wget_hsts_t
  | [], _ => []
  | e :: rest, key =>
    if _compare_hsts e key = 0 then rest else e :: wget_hashmap_remove_hsts rest key

/-- `_new_hsts` from hsts.c: builds a record; `created` stands for the
`time(NULL)` value obtained in `_init_hsts`. The overflow guard clamps
`maxage` and `expires` to 0. -/
def _new_hsts (host : List Char) (port : Nat) (maxage : Int)
    (include_subdomains : Bool) (created : Int) : wget_hsts_t :=
  let p := if port = 0 then 443 else port
  if maxage ≤ 0 ∨ maxage ≥ INT64_MAX_HALF ∨ created < 0 ∨ created ≥ INT64_MAX_HALF then
    { host := host, port := p, include_subdomains := include_subdomains,
      created := created, maxage := 0, expires := 0 }
  else
    { host := host, port := p, include_subdomains := include_subdomains,
      created := created, maxage := maxage, expires := created + maxage }

/-- `_hsts_db_add_entry` from hsts.c: upsert of one record into the entry
set. `maxage == 0` turns into removal; an existing entry is updated in
place only under the staleness guard of the C code; otherwise the record
itself is inserted. -/
def _hsts_db_add_entry (entries : List wget_hsts_t) (hsts : wget_hsts_t) :
    List wget_hsts_t :=
  if hsts.maxage = 0 then
    wget_hashmap_remove_hsts entries hsts
  else
    match wget_hashmap_get_hsts entries hsts with
    | some _ =>
      entries.map (fun old =>
        if _compare_hsts old hsts = 0 then
          if old.created < hsts.created ∨ old.maxage ≠ hsts.maxage ∨
              old.include_subdomains ≠ hsts.include_subdomains then
            { old with created := hsts.created, expires := hsts.expires,
                       maxage := hsts.maxage,
                       include_subdomains := hsts.include_subdomains }
          else old
        else old)
    | none => entries ++ [hsts]

/-- `impl_hsts_db_add` from hsts.c: builds the record through `_new_hsts`
and upserts it. -/
def impl_hsts_db_add (entries : List wget_hsts_t) (host : List Char)
    (port : Nat) (maxage : Int) (include_subdomains : Bool) (created : Int) :
    List wget_hsts_t :=
  _hsts_db_add_entry entries (_new_hsts host port maxage include_subdomains created)

/-- The suffixes probed by the subdomain loop of `impl_hsts_db_host_match`:
for each `.` of the host, the remainder just after it (`strchr` walk). -/
def domainSuffixes : List Char → List (List Char)
  | [] => []
  | c :: rest =>
    if c = '.' then rest :: domainSuffixes rest else domainSuffixes rest

/-- `impl_hsts_db_host_match` from hsts.c: normalize port 80 to 443, try
the exact key, then every suffix after a dot (requiring
`include_subdomains`); a hit also requires `expires >= now`. -/
def impl_hsts_db_host_match (entries : List wget_hsts_t) (host : List Char)
    (port : Nat) (now : Int) : Bool :=
  let nport := if port = 80 then 443 else port
  let exact :=
    match wget_hashmap_get_hsts entries (hstsKey host nport) with
    | some e => decide (now ≤ e.expires)
    | none => false
  exact || (domainSuffixes host).any (fun s =>
    match wget_hashmap_get_hsts entries (hstsKey s nport) with
    | some e => e.include_subdomains && decide (now ≤ e.expires)
    | none => false)

/-! ## Basic facts about the comparators -/

theorem strcmpChar_self (l : List Char) : strcmpChar l l = 0 := by
  induction l with
  | nil => rfl
  | cons c rest ih => simp [strcmpChar, ih]

theorem strcmpChar_eq_zero_iff (a b : List Char) :
    strcmpChar a b = 0 ↔ a = b := by
  induction a generalizing b with
  | nil => cases b <;> simp [strcmpChar]
  | cons c rest ih =>
    cases b with
    | nil => simp [strcmpChar]
    | cons d bs =>
      by_cases h1 : c < d
      · have hne : c ≠ d := ne_of_lt h1
        simp [strcmpChar, h1, hne]
      · by_cases h2 : d < c
        · have hne : c ≠ d := (ne_of_lt h2).symm
          simp [strcmpChar, h1, h2, hne]
        · have hcd : c = d := le_antisymm (not_lt.mp h2) (not_lt.mp h1)
          simp [strcmpChar, h1, h2, hcd, ih]

theorem _compare_hsts_eq_zero_iff (a b : wget_hsts_t) :
    _compare_hsts a b = 0 ↔ a.host = b.host ∧ a.port = b.port := by
  unfold _compare_hsts
  by_cases h : strcmpChar a.host b.host = 0
  · rw [strcmpChar_eq_zero_iff] at h
    simp only [h, strcmpChar_self, ne_eq, not_true_eq_false, if_false, true_and]
    rcases Nat.lt_trichotomy a.port b.port with hlt | heq | hgt
    · simp [hlt, Nat.ne_of_lt hlt]
    · simp [heq]
    · simp [Nat.lt_asymm hgt, hgt, Nat.ne_of_gt hgt]
  · simp only [ne_eq, h, not_false_eq_true, if_true]
    constructor
    · intro hz; exact hz.elim
    · intro hcon
      exact absurd ((strcmpChar_eq_zero_iff _ _).mpr hcon.1) h

/-! ## HPKP data model (hpkp.c) -/

/-- `struct _wget_hpkp_pin_st` from hpkp.c: one SPKI pin.
`pin` is the binary hash, `pinsize` its length in bytes. -/
structure wget_hpkp_pin_t where
  pin_b64 : List Char
  pin : List Nat
  hash_type : List Char
  pinsize : Nat
deriving DecidableEq, Repr

/-- `struct _wget_hpkp_st` from hpkp.c: one HPKP policy record with its
pin set; a NULL pin vector is the empty list. -/
structure wget_hpkp_t where
  host : List Char
  expires : Int
  created : Int
  maxage : Int
  include_subdomains : Bool
  pins : List wget_hpkp_pin_t
deriving DecidableEq, Repr

/-- `_compare_hpkp` from hpkp.c: strcmp on the hostnames. -/
def _compare_hpkp (h1 h2 : wget_hpkp_t) : Int :=
  strcmpChar h1.host h2.host

/-- `_compare_pin` from hpkp.c: hash type, then size, then bytes. -/
def _compare_pin (p1 p2 : wget_hpkp_pin_t) : Int :=
  let n := strcmpChar p1.hash_type p2.hash_type
  if n ≠ 0 then n
  else if p1.pinsize < p2.pinsize then -1
  else if p1.pinsize > p2.pinsize then 1
  else memcmpN p1.pinsize p1.pin p2.pin

/-- Modelled from the spec: `wget_vector_add_noalloc` on a vector created
with the `_compare_pin` comparator (vector.c is not in src/). The spec
states the pin set is kept "deduplicated under the comparator
(hash_type, then length, then byte content)", so adding an element equal
to a present one is a no-op and anything else is appended. -/
def wget_vector_add_noalloc (v : List wget_hpkp_pin_t) (p : wget_hpkp_pin_t) :
    List wget_hpkp_pin_t :=
  if v.any (fun q => _compare_pin q p = 0) then v else v ++ [p]

/-- Modelled from the spec: `wget_vector_find` (vector.c is not in src/)
returns the index of an element comparing equal to the given one under
the vector comparator, or -1 when there is none. -/
def wget_vector_find : List wget_hpkp_pin_t → wget_hpkp_pin_t → Int
  | [], _ => -1
  | q :: rest, p =>
    if _compare_pin q p = 0 then 0
    else if wget_vector_find rest p = -1 then -1 else wget_vector_find rest p + 1

/-- `wget_hpkp_pin_add` from hpkp.c: decode the base64 pin and add
(hash type, bytes, length) to the pin set. `b64decode` stands for
`wget_base64_decode_alloc`, a primitive not in src/ (its byte output and
length are whatever the codec yields, possibly empty on malformed
input). -/
def wget_hpkp_pin_add (b64decode : List Char → List Nat)
    (hpkp : wget_hpkp_t) (pin_type pin_b64 : List Char) : wget_hpkp_t :=
  let bytes := b64decode pin_b64
  let pin : wget_hpkp_pin_t :=
    { hash_type := pin_type, pin_b64 := pin_b64, pin := bytes,
      pinsize := bytes.length }
  { hpkp with pins := wget_vector_add_noalloc hpkp.pins pin }

/-- `wget_hpkp_new` from hpkp.c: zeroed record with `created = time(NULL)`. -/
def wget_hpkp_new (created : Int) : wget_hpkp_t :=
  { host := [], expires := 0, created := created, maxage := 0,
    include_subdomains := false, pins := [] }

/-- `wget_hpkp_set_maxage` from hpkp.c: set `maxage` and `expires` with
the overflow guard; `now` stands for the `time(NULL)` call. -/
def wget_hpkp_set_maxage (hpkp : wget_hpkp_t) (maxage now : Int) : wget_hpkp_t :=
  if maxage ≤ 0 ∨ maxage ≥ INT64_MAX_HALF ∨ now < 0 ∨ now ≥ INT64_MAX_HALF then
    { hpkp with maxage := 0, expires := 0 }
  else
    { hpkp with maxage := maxage, expires := now + maxage }

/-- An HPKP lookup key as built on the stack by `impl_hpkp_db_check_pubkey`:
only `host` is meaningful. -/
def hpkpKey (host : List Char) : wget_hpkp_t :=
  { host := host, expires := 0, created := 0, maxage := 0,
    include_subdomains := false, pins := [] }

/-- Modelled from the spec: `wget_hashmap_get` on the HPKP entry set
(hashmap.c is not in src/), looked up through `_compare_hpkp`. -/
def wget_hashmap_get_hpkp (entries : List wget_hpkp_t) (key : wget_hpkp_t) :
    Option wget_hpkp_t :=
  entries.find? (fun e => _compare_hpkp e key = 0)

/-- Modelled from the spec: `wget_hashmap_remove` on the HPKP entry set. -/
def wget_hashmap_remove_hpkp : List wget_hpkp_t → wget_hpkp_t → List wget_hpkp_t
  | [], _ => []
  | e :: rest, key =>
    if _compare_hpkp e key = 0 then rest else e :: wget_hashmap_remove_hpkp rest key

/-- C `while (*domain == '.') domain++` : skip leading dots. -/
def stripDots : List Char → List Char
  | '.' :: rest => stripDots rest
  | l => l

/-- C `strchrnul(domain, '.')`: the suffix starting at the first dot, or
the empty string when there is none. -/
def strchrnulDot : List Char → List Char
  | [] => []
  | c :: rest => if c = '.' then c :: rest else strchrnulDot rest

theorem stripDots_length_le (l : List Char) : (stripDots l).length ≤ l.length := by
  induction l with
  | nil => simp [stripDots]
  | cons c rest ih =>
    by_cases h : c = '.'
    · subst h
      calc (stripDots ('.' :: rest)).length = (stripDots rest).length := by
            simp [stripDots]
        _ ≤ rest.length := ih
        _ ≤ ('.' :: rest).length := by simp
    · have : stripDots (c :: rest) = c :: rest := by
        unfold stripDots
        split
        · rename_i heq
          rw [List.cons.injEq] at heq
          exact absurd heq.1 h
        · rfl
      simp [this]

theorem strchrnulDot_length_le (l : List Char) :
    (strchrnulDot l).length ≤ l.length := by
  induction l with
  | nil => simp [strchrnulDot]
  | cons c rest ih =>
    by_cases h : c = '.'
    · simp [strchrnulDot, h]
    · simp only [strchrnulDot, if_neg h]
      exact le_trans ih (by simp)

theorem stripDots_cons_dot (rest : List Char) :
    stripDots ('.' :: rest) = stripDots rest := by
  simp [stripDots]

theorem stripDots_no_dot {c : Char} (rest : List Char) (h : c ≠ '.') :
    stripDots (c :: rest) = c :: rest := by
  unfold stripDots
  split
  · rename_i heq
    rw [List.cons.injEq] at heq
    exact absurd heq.1 h
  · rfl

theorem walk_measure (c : Char) (rest : List Char) :
    (strchrnulDot (stripDots (c :: rest))).length < (c :: rest).length := by
  induction rest generalizing c with
  | nil =>
    by_cases h : c = '.'
    · subst h; simp [stripDots_cons_dot, stripDots, strchrnulDot]
    · rw [stripDots_no_dot _ h]
      simp [strchrnulDot, h]
  | cons d rest ih =>
    by_cases h : c = '.'
    · subst h
      rw [stripDots_cons_dot]
      exact Nat.lt_trans (ih d) (by simp)
    · rw [stripDots_no_dot _ h]
      have h1 : strchrnulDot (c :: d :: rest) = strchrnulDot (d :: rest) := by
        conv_lhs => rw [strchrnulDot]
        rw [if_neg h]
      rw [h1]
      have h2 := strchrnulDot_length_le (d :: rest)
      simp only [List.length_cons] at h2 ⊢
      omega

/-- The domain walk of `impl_hpkp_db_check_pubkey`: strip leading dots,
probe, and on a miss continue at the next dot with the subdomain flag
set. Returns the first entry found and whether it was found after at
least one miss. -/
def hpkpDomainWalk (entries : List wget_hpkp_t) (domain : List Char)
    (subdomain : Bool) : Option (wget_hpkp_t × Bool) :=
  match domain with
  | [] => none
  | c :: rest =>
    let d := stripDots (c :: rest)
    match wget_hashmap_get_hpkp entries (hpkpKey d) with
    | some e => some (e, subdomain)
    | none => hpkpDomainWalk entries (strchrnulDot d) true
termination_by domain.length
decreasing_by
  simp only [List.length_cons]
  exact walk_measure c rest

/-- The list of domains probed by the walk (ignoring early exit):
the host with leading dots stripped, then each dot-suffix in turn. -/
def probedDomains (domain : List Char) : List (List Char) :=
  match domain with
  | [] => []
  | c :: rest =>
    let d := stripDots (c :: rest)
    d :: probedDomains (strchrnulDot d)
termination_by domain.length
decreasing_by
  simp only [List.length_cons]
  exact walk_measure c rest

/-- Modelled from the spec: the SHA-256 digest length returned by
`wget_hash_get_len(WGET_DIGTYPE_SHA256)` (hash code not in src/). -/
def sha256_digest_len : Nat := 32

/-- The constant hash type string used by `impl_hpkp_db_check_pubkey`. -/
def sha256_type : List Char := "sha256".toList

/-- `impl_hpkp_db_check_pubkey` from hpkp.c. `hashFast` stands for
`wget_hash_fast` computing SHA-256 into a 32-byte buffer; `none` models
a digest failure (nonzero return of the C call). -/
def impl_hpkp_db_check_pubkey (hashFast : List Nat → Option (List Nat))
    (entries : List wget_hpkp_t) (host : List Char) (pubkey : List Nat) : Int :=
  match hpkpDomainWalk entries host false with
  | none => 0
  | some (hpkp, subdomain) =>
    if subdomain ∧ ¬hpkp.include_subdomains then 0
    else
      match hashFast pubkey with
      | none => -1
      | some digest =>
        let pinkey : wget_hpkp_pin_t :=
          { pin := digest, pinsize := sha256_digest_len,
            hash_type := sha256_type, pin_b64 := [] }
        if wget_vector_find hpkp.pins pinkey ≠ -1 then 1 else -2

/-- `impl_hpkp_db_add` from hpkp.c: upsert of one record; zero maxage or
an empty pin set turns into removal; on overwrite every field and the
whole pin set are copied from the incoming record. -/
def impl_hpkp_db_add (entries : List wget_hpkp_t) (hpkp : wget_hpkp_t) :
    List wget_hpkp_t :=
  if hpkp.maxage = 0 ∨ hpkp.pins.length = 0 then
    wget_hashmap_remove_hpkp entries hpkp
  else
    match wget_hashmap_get_hpkp entries hpkp with
    | some _ =>
      entries.map (fun old =>
        if _compare_hpkp old hpkp = 0 then
          { old with created := hpkp.created, maxage := hpkp.maxage,
                     expires := hpkp.expires,
                     include_subdomains := hpkp.include_subdomains,
                     pins := hpkp.pins }
        else old)
    | none => entries ++ [hpkp]

/-- `wget_hpkp_db_add` from hpkp.c seen at the callers in `_hpkp_db_load`:
a NULL record makes `impl_hpkp_db_add` return at once. -/
def wget_hpkp_db_add_opt (entries : List wget_hpkp_t)
    (hpkp : Option wget_hpkp_t) : List wget_hpkp_t :=
  match hpkp with
  | none => entries
  | some h => impl_hpkp_db_add entries h

theorem _compare_hpkp_eq_zero_iff (a b : wget_hpkp_t) :
    _compare_hpkp a b = 0 ↔ a.host = b.host := by
  unfold _compare_hpkp
  exact strcmpChar_eq_zero_iff _ _

theorem memcmpN_self (n : Nat) (l : List Nat) : memcmpN n l l = 0 := by
  induction l generalizing n with
  | nil => cases n <;> rfl
  | cons x xs ih =>
    cases n with
    | zero => rfl
    | succ m => simp [memcmpN, ih]

theorem _compare_pin_self (p : wget_hpkp_pin_t) : _compare_pin p p = 0 := by
  simp [_compare_pin, strcmpChar_self, memcmpN_self]

/-! ## Key uniqueness of the hashmap-backed entry sets -/

/-- The hashmap invariant for the HSTS store: no two entries compare
equal under `_compare_hsts`. -/
abbrev hstsKeysUnique (entries : List wget_hsts_t) : Prop :=
  entries.Pairwise (fun a b => _compare_hsts a b ≠ 0)

/-- The hashmap invariant for the HPKP store: no two entries compare
equal under `_compare_hpkp`. -/
abbrev hpkpKeysUnique (entries : List wget_hpkp_t) : Prop :=
  entries.Pairwise (fun a b => _compare_hpkp a b ≠ 0)

theorem _compare_hsts_key_trans {a b k : wget_hsts_t}
    (ha : _compare_hsts a k = 0) (hb : _compare_hsts b k = 0) :
    _compare_hsts a b = 0 := by
  rw [_compare_hsts_eq_zero_iff] at *
  exact ⟨ha.1.trans hb.1.symm, ha.2.trans hb.2.symm⟩

theorem _compare_hpkp_key_trans {a b k : wget_hpkp_t}
    (ha : _compare_hpkp a k = 0) (hb : _compare_hpkp b k = 0) :
    _compare_hpkp a b = 0 := by
  rw [_compare_hpkp_eq_zero_iff] at *
  exact ha.trans hb.symm

theorem hsts_get_eq_some {entries : List wget_hsts_t} {e k : wget_hsts_t}
    (hu : hstsKeysUnique entries) (he : e ∈ entries)
    (hk : _compare_hsts e k = 0) :
    wget_hashmap_get_hsts entries k = some e := by
  induction entries with
  | nil => cases he
  | cons a rest ih =>
    replace hu := List.pairwise_cons.mp hu
    by_cases ha : _compare_hsts a k = 0
    · have : a = e := by
        rcases List.mem_cons.mp he with h | h
        · exact h.symm
        · exact absurd (_compare_hsts_key_trans ha hk) (hu.1 e h)
      simp [wget_hashmap_get_hsts, List.find?_cons, this, hk]
    · have : e ∈ rest := by
        rcases List.mem_cons.mp he with h | h
        · exact absurd (h ▸ hk) ha
        · exact h
      have := ih hu.2 this
      simpa [wget_hashmap_get_hsts, List.find?_cons, ha] using this

theorem hsts_get_eq_none {entries : List wget_hsts_t} {k : wget_hsts_t}
    (h : ∀ e ∈ entries, _compare_hsts e k ≠ 0) :
    wget_hashmap_get_hsts entries k = none := by
  induction entries with
  | nil => rfl
  | cons a rest ih =>
    have ha := h a (List.mem_cons_self a rest)
    simp only [wget_hashmap_get_hsts, List.find?_cons, ha]
    simp only [decide_eq_true_eq, ha, decide_False]
    exact ih (fun e he => h e (List.mem_cons_of_mem a he))

theorem hsts_get_none_iff {entries : List wget_hsts_t} {k : wget_hsts_t} :
    wget_hashmap_get_hsts entries k = none ↔
      ∀ e ∈ entries, _compare_hsts e k ≠ 0 := by
  constructor
  · intro h e he hk
    induction entries with
    | nil => cases he
    | cons a rest ih =>
      by_cases ha : _compare_hsts a k = 0
      · simp [wget_hashmap_get_hsts, List.find?_cons, ha] at h
      · rcases List.mem_cons.mp he with h1 | h1
        · exact ha (h1 ▸ hk)
        · exact ih (by simpa [wget_hashmap_get_hsts, List.find?_cons, ha] using h) h1
  · exact hsts_get_eq_none

theorem hsts_remove_of_absent {entries : List wget_hsts_t} {k : wget_hsts_t}
    (h : ∀ e ∈ entries, _compare_hsts e k ≠ 0) :
    wget_hashmap_remove_hsts entries k = entries := by
  induction entries with
  | nil => rfl
  | cons a rest ih =>
    have ha := h a (List.mem_cons_self a rest)
    simp only [wget_hashmap_remove_hsts, ha, if_false]
    rw [ih (fun e he => h e (List.mem_cons_of_mem a he))]

theorem hsts_mem_remove_iff {entries : List wget_hsts_t} {k e : wget_hsts_t}
    (hu : hstsKeysUnique entries) :
    e ∈ wget_hashmap_remove_hsts entries k ↔
      e ∈ entries ∧ _compare_hsts e k ≠ 0 := by
  induction entries with
  | nil => simp [wget_hashmap_remove_hsts]
  | cons a rest ih =>
    replace hu := List.pairwise_cons.mp hu
    by_cases ha : _compare_hsts a k = 0
    · simp only [wget_hashmap_remove_hsts, ha, if_true]
      constructor
      · intro h
        refine ⟨List.mem_cons_of_mem a h, fun hk => ?_⟩
        exact hu.1 e h (_compare_hsts_key_trans ha hk)
      · intro ⟨hmem, hk⟩
        rcases List.mem_cons.mp hmem with h1 | h1
        · exact absurd (h1 ▸ ha) hk
        · exact h1
    · simp only [wget_hashmap_remove_hsts, ha, if_false, List.mem_cons, ih hu.2]
      constructor
      · rintro (rfl | ⟨h1, h2⟩)
        · exact ⟨Or.inl rfl, ha⟩
        · exact ⟨Or.inr h1, h2⟩
      · rintro ⟨rfl | h1, hk⟩
        · exact Or.inl rfl
        · exact Or.inr ⟨h1, hk⟩

theorem hpkp_get_eq_some {entries : List wget_hpkp_t} {e k : wget_hpkp_t}
    (hu : hpkpKeysUnique entries) (he : e ∈ entries)
    (hk : _compare_hpkp e k = 0) :
    wget_hashmap_get_hpkp entries k = some e := by
  induction entries with
  | nil => cases he
  | cons a rest ih =>
    replace hu := List.pairwise_cons.mp hu
    by_cases ha : _compare_hpkp a k = 0
    · have : a = e := by
        rcases List.mem_cons.mp he with h | h
        · exact h.symm
        · exact absurd (_compare_hpkp_key_trans ha hk) (hu.1 e h)
      simp [wget_hashmap_get_hpkp, List.find?_cons, this, hk]
    · have : e ∈ rest := by
        rcases List.mem_cons.mp he with h | h
        · exact absurd (h ▸ hk) ha
        · exact h
      have := ih hu.2 this
      simpa [wget_hashmap_get_hpkp, List.find?_cons, ha] using this

theorem hpkp_get_eq_none {entries : List wget_hpkp_t} {k : wget_hpkp_t}
    (h : ∀ e ∈ entries, _compare_hpkp e k ≠ 0) :
    wget_hashmap_get_hpkp entries k = none := by
  induction entries with
  | nil => rfl
  | cons a rest ih =>
    have ha := h a (List.mem_cons_self a rest)
    simp only [wget_hashmap_get_hpkp, List.find?_cons, ha]
    simp only [decide_eq_true_eq, ha, decide_False]
    exact ih (fun e he => h e (List.mem_cons_of_mem a he))

theorem hpkp_get_none_iff {entries : List wget_hpkp_t} {k : wget_hpkp_t} :
    wget_hashmap_get_hpkp entries k = none ↔
      ∀ e ∈ entries, _compare_hpkp e k ≠ 0 := by
  constructor
  · intro h e he hk
    induction entries with
    | nil => cases he
    | cons a rest ih =>
      by_cases ha : _compare_hpkp a k = 0
      · simp [wget_hashmap_get_hpkp, List.find?_cons, ha] at h
      · rcases List.mem_cons.mp he with h1 | h1
        · exact ha (h1 ▸ hk)
        · exact ih (by simpa [wget_hashmap_get_hpkp, List.find?_cons, ha] using h) h1
  · exact hpkp_get_eq_none

theorem hpkp_remove_of_absent {entries : List wget_hpkp_t} {k : wget_hpkp_t}
    (h : ∀ e ∈ entries, _compare_hpkp e k ≠ 0) :
    wget_hashmap_remove_hpkp entries k = entries := by
  induction entries with
  | nil => rfl
  | cons a rest ih =>
    have ha := h a (List.mem_cons_self a rest)
    simp only [wget_hashmap_remove_hpkp, ha, if_false]
    rw [ih (fun e he => h e (List.mem_cons_of_mem a he))]

theorem hpkp_mem_remove_iff {entries : List wget_hpkp_t} {k e : wget_hpkp_t}
    (hu : hpkpKeysUnique entries) :
    e ∈ wget_hashmap_remove_hpkp entries k ↔
      e ∈ entries ∧ _compare_hpkp e k ≠ 0 := by
  induction entries with
  | nil => simp [wget_hashmap_remove_hpkp]
  | cons a rest ih =>
    replace hu := List.pairwise_cons.mp hu
    by_cases ha : _compare_hpkp a k = 0
    · simp only [wget_hashmap_remove_hpkp, ha, if_true]
      constructor
      · intro h
        refine ⟨List.mem_cons_of_mem a h, fun hk => ?_⟩
        exact hu.1 e h (_compare_hpkp_key_trans ha hk)
      · intro ⟨hmem, hk⟩
        rcases List.mem_cons.mp hmem with h1 | h1
        · exact absurd (h1 ▸ ha) hk
        · exact h1
    · simp only [wget_hashmap_remove_hpkp, ha, if_false, List.mem_cons, ih hu.2]
      constructor
      · rintro (rfl | ⟨h1, h2⟩)
        · exact ⟨Or.inl rfl, ha⟩
        · exact ⟨Or.inr h1, h2⟩
      · rintro ⟨rfl | h1, hk⟩
        · exact Or.inl rfl
        · exact Or.inr ⟨h1, hk⟩

/-! ## Helper facts for the matching engine -/

theorem hsts_get_singleton (e k : wget_hsts_t) :
    wget_hashmap_get_hsts [e] k =
      (if _compare_hsts e k = 0 then some e else none) := by
  by_cases h : _compare_hsts e k = 0 <;>
    simp [wget_hashmap_get_hsts, List.find?_cons, h]

theorem mem_domainSuffixes_append (x H : List Char) :
    H ∈ domainSuffixes (x ++ '.' :: H) := by
  induction x with
  | nil => simp [domainSuffixes]
  | cons c xs ih =>
    by_cases h : c = '.'
    · simpa [domainSuffixes, h] using Or.inr ih
    · simpa [domainSuffixes, h] using ih

theorem append_dot_ne (x H : List Char) : x ++ '.' :: H ≠ H := by
  intro h
  have := congrArg List.length h
  simp [List.length_append] at this
  omega

/-- C3: `host_match` normalizes port 80 to 443, matches on an exact
non-expired (host, normalized port) entry, and the exact lookup misses
whenever no entry carries that exact key. -/
theorem C3_exact_match_port_normalization :
    (∀ (entries : List wget_hsts_t) (h : List Char) (now : Int),
      impl_hsts_db_host_match entries h 80 now =
        impl_hsts_db_host_match entries h 443 now) ∧
    (∀ (entries : List wget_hsts_t) (e : wget_hsts_t) (h : List Char)
        (port : Nat) (now : Int),
      hstsKeysUnique entries → e ∈ entries → e.host = h →
      e.port = (if port = 80 then 443 else port) → now ≤ e.expires →
      impl_hsts_db_host_match entries h port now = true) ∧
    (∀ (entries : List wget_hsts_t) (h : List Char) (port : Nat),
      (∀ e ∈ entries, ¬(e.host = h ∧ e.port = (if port = 80 then 443 else port))) →
      wget_hashmap_get_hsts entries (hstsKey h (if port = 80 then 443 else port)) = none) := by
  refine ⟨fun entries h now => rfl, ?_, ?_⟩
  · intro entries e h port now hu he hh hp hexp
    have hget : wget_hashmap_get_hsts entries
        (hstsKey h (if port = 80 then 443 else port)) = some e :=
      hsts_get_eq_some hu he (by
        rw [_compare_hsts_eq_zero_iff]
        exact ⟨hh, hp⟩)
    simp [impl_hsts_db_host_match, hget, hexp]
  · intro entries h port hnone
    exact hsts_get_eq_none (fun e he hk => by
      rw [_compare_hsts_eq_zero_iff] at hk
      exact hnone e he ⟨hk.1, hk.2⟩)

/-- C3 witness: a stored (host, 443) entry is matched by a port-80 query. -/
theorem C3_exact_match_port_normalization_witness :
    impl_hsts_db_host_match
      [{ host := ['h'], expires := 10, created := 0, maxage := 10,
         port := 443, include_subdomains := false }] ['h'] 80 0 = true := by
  exact C3_exact_match_port_normalization.2.1
    [{ host := ['h'], expires := 10, created := 0, maxage := 10,
       port := 443, include_subdomains := false }]
    { host := ['h'], expires := 10, created := 0, maxage := 10,
      port := 443, include_subdomains := false }
    ['h'] 80 0 (by simp) (by simp) rfl (by decide) (by decide)

/-- C2 counterexample. First part: an entry stored at port 80 with
`include_subdomains` set is never matched by a subdomain query at that
port, because the query port is normalized to 443 before both lookups.
Second part: with `include_subdomains` false on the super-domain but a
second entry at the subdomain itself, the subdomain query returns true,
not false. -/
theorem C2_subdomain_counterexample :
    ((({ host := "example.com".toList, expires := 100, created := 0, maxage := 100,
         port := 80, include_subdomains := true } : wget_hsts_t).include_subdomains = true ∧
      (0:Int) ≤ 100 ∧
      impl_hsts_db_host_match
        [{ host := "example.com".toList, expires := 100, created := 0, maxage := 100,
           port := 80, include_subdomains := true }]
        ("a.example.com".toList) 80 0 = false) ∧
     (({ host := "example.com".toList, expires := 100, created := 0, maxage := 100,
         port := 443, include_subdomains := false } : wget_hsts_t).include_subdomains = false ∧
      impl_hsts_db_host_match
        [{ host := "example.com".toList, expires := 100, created := 0, maxage := 100,
           port := 443, include_subdomains := false },
         { host := "a.example.com".toList, expires := 100, created := 0, maxage := 100,
           port := 443, include_subdomains := false }]
        ("a.example.com".toList) 443 0 = true)) := by
  decide

/-- C2 as amended: restrict the entry to one actually reachable by the
query (its port equals the normalized query port), and the negative
direction to a store whose only entry is the super-domain one. Then a
non-expired entry with `include_subdomains` matches every strict
subdomain query at that port; without `include_subdomains` every strict
subdomain query fails while the exact host still matches. -/
theorem C2_subdomain_match_amended :
    (∀ (entries : List wget_hsts_t) (e : wget_hsts_t) (H x : List Char)
        (port : Nat) (now : Int),
      hstsKeysUnique entries → e ∈ entries → e.host = H →
      e.port = (if port = 80 then 443 else port) →
      e.include_subdomains = true → now ≤ e.expires →
      impl_hsts_db_host_match entries (x ++ '.' :: H) port now = true) ∧
    (∀ (e : wget_hsts_t) (H x : List Char) (port : Nat) (now : Int),
      e.host = H → e.port = (if port = 80 then 443 else port) →
      e.include_subdomains = false → now ≤ e.expires →
      impl_hsts_db_host_match [e] (x ++ '.' :: H) port now = false ∧
      impl_hsts_db_host_match [e] H port now = true) := by
  constructor
  · intro entries e H x port now hu he hh hp hsub hexp
    have hget : wget_hashmap_get_hsts entries
        (hstsKey H (if port = 80 then 443 else port)) = some e :=
      hsts_get_eq_some hu he (by
        rw [_compare_hsts_eq_zero_iff]
        exact ⟨hh, hp⟩)
    have hmem := mem_domainSuffixes_append x H
    simp only [impl_hsts_db_host_match, Bool.or_eq_true]
    refine Or.inr (List.any_eq_true.mpr ⟨H, hmem, ?_⟩)
    simp [hget, hsub, hexp]
  · intro e H x port now hh hp hsub hexp
    constructor
    · simp only [impl_hsts_db_host_match, Bool.or_eq_false_iff]
      constructor
      · have : wget_hashmap_get_hsts [e]
            (hstsKey (x ++ '.' :: H) (if port = 80 then 443 else port)) = none := by
          rw [hsts_get_singleton, if_neg]
          rw [_compare_hsts_eq_zero_iff]
          intro hk
          exact append_dot_ne x H (hh ▸ hk.1).symm
        simp [this]
      · rw [List.any_eq_false]
        intro s _
        rw [hsts_get_singleton]
        by_cases hc : _compare_hsts e (hstsKey s (if port = 80 then 443 else port)) = 0
        · simp [hc, hsub]
        · simp [hc]
    · have hget : wget_hashmap_get_hsts [e]
          (hstsKey H (if port = 80 then 443 else port)) = some e := by
        rw [hsts_get_singleton, if_pos]
        rw [_compare_hsts_eq_zero_iff]
        exact ⟨hh, hp⟩
      simp [impl_hsts_db_host_match, hget, hexp]

/-- C2 amended witness: "example.com" with includeSubDomains matches
"a.b.example.com"; without it the same query fails but the exact host
matches. -/
theorem C2_subdomain_match_amended_witness :
    impl_hsts_db_host_match
      [{ host := "example.com".toList, expires := 100, created := 0, maxage := 100,
         port := 443, include_subdomains := true }]
      ("a.b" ++ "." ++ "example.com").toList 443 0 = true := by
  have h := C2_subdomain_match_amended.1
    [{ host := "example.com".toList, expires := 100, created := 0, maxage := 100,
       port := 443, include_subdomains := true }]
    { host := "example.com".toList, expires := 100, created := 0, maxage := 100,
      port := 443, include_subdomains := true }
    ("example.com".toList) ("a.b".toList) 443 0
    (by simp) (by simp) rfl (by decide) rfl (by decide)
  simpa using h

theorem compare_hstsKey_iff (e : wget_hsts_t) (h : List Char) (p : Nat) :
    _compare_hsts e (hstsKey h p) = 0 ↔ (e.host = h ∧ e.port = p) :=
  _compare_hsts_eq_zero_iff e (hstsKey h p)

theorem compare_hpkpKey_iff (e : wget_hpkp_t) (h : List Char) :
    _compare_hpkp e (hpkpKey h) = 0 ↔ e.host = h :=
  _compare_hpkp_eq_zero_iff e (hpkpKey h)

/-- C4: upserting with non-positive maxage (HPKP: with an empty pin set)
removes any entry with the same key and is a no-op when the key is
absent; the incoming record never lands in the store. -/
theorem C4_nonpositive_maxage_removes :
    (∀ (entries : List wget_hsts_t) (host : List Char) (port : Nat)
        (maxage : Int) (incl : Bool) (created : Int),
      hstsKeysUnique entries → maxage ≤ 0 →
      wget_hashmap_get_hsts (impl_hsts_db_add entries host port maxage incl created)
          (hstsKey host (if port = 0 then 443 else port)) = none ∧
      (wget_hashmap_get_hsts entries (hstsKey host (if port = 0 then 443 else port)) = none →
        impl_hsts_db_add entries host port maxage incl created = entries) ∧
      (∀ e, e ∈ impl_hsts_db_add entries host port maxage incl created ↔
        e ∈ entries ∧ ¬(e.host = host ∧ e.port = (if port = 0 then 443 else port)))) ∧
    (∀ (entries : List wget_hpkp_t) (hpkp : wget_hpkp_t),
      hpkpKeysUnique entries → hpkp.maxage ≤ 0 → hpkp.pins = [] →
      wget_hashmap_get_hpkp (impl_hpkp_db_add entries hpkp) (hpkpKey hpkp.host) = none ∧
      (wget_hashmap_get_hpkp entries (hpkpKey hpkp.host) = none →
        impl_hpkp_db_add entries hpkp = entries) ∧
      (∀ e, e ∈ impl_hpkp_db_add entries hpkp ↔
        e ∈ entries ∧ e.host ≠ hpkp.host)) := by
  constructor
  · intro entries host port maxage incl created hu hm
    have hnew : _new_hsts host port maxage incl created =
        { host := host, port := if port = 0 then 443 else port,
          include_subdomains := incl, created := created, maxage := 0, expires := 0 } := by
      simp [_new_hsts, if_pos (Or.inl hm)]
    have himpl : impl_hsts_db_add entries host port maxage incl created =
        wget_hashmap_remove_hsts entries (_new_hsts host port maxage incl created) := by
      simp [impl_hsts_db_add, _hsts_db_add_entry, hnew]
    have hkeyiff : ∀ e : wget_hsts_t,
        _compare_hsts e (_new_hsts host port maxage incl created) = 0 ↔
        (e.host = host ∧ e.port = (if port = 0 then 443 else port)) := by
      intro e
      rw [hnew, _compare_hsts_eq_zero_iff]
    refine ⟨?_, ?_, ?_⟩
    · rw [himpl]
      apply hsts_get_eq_none
      intro e he hk
      rw [hsts_mem_remove_iff hu] at he
      rw [compare_hstsKey_iff] at hk
      exact he.2 ((hkeyiff e).mpr ⟨hk.1, hk.2⟩)
    · intro habs
      rw [hsts_get_none_iff] at habs
      rw [himpl]
      apply hsts_remove_of_absent
      intro e he hk
      exact habs e he ((compare_hstsKey_iff e _ _).mpr ((hkeyiff e).mp hk))
    · intro e
      rw [himpl, hsts_mem_remove_iff hu]
      exact and_congr_right (fun _ => not_congr (hkeyiff e))
  · intro entries hpkp hu hm hpins
    have hcond : hpkp.maxage = 0 ∨ hpkp.pins.length = 0 := Or.inr (by simp [hpins])
    have himpl : impl_hpkp_db_add entries hpkp =
        wget_hashmap_remove_hpkp entries hpkp := by
      unfold impl_hpkp_db_add
      rw [if_pos hcond]
    have hkeyiff : ∀ e : wget_hpkp_t,
        _compare_hpkp e hpkp = 0 ↔ e.host = hpkp.host := by
      intro e
      rw [_compare_hpkp_eq_zero_iff]
    refine ⟨?_, ?_, ?_⟩
    · rw [himpl]
      apply hpkp_get_eq_none
      intro e he hk
      rw [hpkp_mem_remove_iff hu] at he
      rw [compare_hpkpKey_iff] at hk
      exact he.2 ((hkeyiff e).mpr hk)
    · intro habs
      rw [hpkp_get_none_iff] at habs
      rw [himpl]
      apply hpkp_remove_of_absent
      intro e he hk
      exact habs e he ((compare_hpkpKey_iff e _).mpr ((hkeyiff e).mp hk))
    · intro e
      rw [himpl, hpkp_mem_remove_iff hu]
      exact and_congr_right (fun _ => not_congr (hkeyiff e))

/-- C4 witness: upserting maxage 0 over a present key empties the store. -/
theorem C4_nonpositive_maxage_removes_witness :
    wget_hashmap_get_hsts
      (impl_hsts_db_add
        [{ host := ['x'], expires := 10, created := 0, maxage := 10,
           port := 443, include_subdomains := false }] ['x'] 443 0 false 5)
      (hstsKey ['x'] 443) = none := by
  have h := (C4_nonpositive_maxage_removes.1
    [{ host := ['x'], expires := 10, created := 0, maxage := 10,
       port := 443, include_subdomains := false }]
    ['x'] 443 0 false 5 (by simp) (by decide)).1
  simpa using h

/-- C7: `_new_hsts` and `wget_hpkp_set_maxage` clamp maxage and expires
to zero whenever maxage is non-positive or near INT64_MAX, or the
creation time is negative or near INT64_MAX; otherwise
`expires = created + maxage` and the mathematical sum stays within the
signed 64-bit range (no overflow). -/
theorem C7_overflow_clamp (host : List Char) (port : Nat) (maxage : Int)
    (incl : Bool) (created : Int) (hpkp : wget_hpkp_t) (now : Int) :
    ((maxage ≤ 0 ∨ maxage ≥ INT64_MAX_HALF ∨ created < 0 ∨ created ≥ INT64_MAX_HALF) →
      (_new_hsts host port maxage incl created).maxage = 0 ∧
      (_new_hsts host port maxage incl created).expires = 0) ∧
    (¬(maxage ≤ 0 ∨ maxage ≥ INT64_MAX_HALF ∨ created < 0 ∨ created ≥ INT64_MAX_HALF) →
      (_new_hsts host port maxage incl created).maxage = maxage ∧
      (_new_hsts host port maxage incl created).expires = created + maxage ∧
      0 ≤ created + maxage ∧ created + maxage ≤ INT64_MAX) ∧
    ((maxage ≤ 0 ∨ maxage ≥ INT64_MAX_HALF ∨ now < 0 ∨ now ≥ INT64_MAX_HALF) →
      (wget_hpkp_set_maxage hpkp maxage now).maxage = 0 ∧
      (wget_hpkp_set_maxage hpkp maxage now).expires = 0) ∧
    (¬(maxage ≤ 0 ∨ maxage ≥ INT64_MAX_HALF ∨ now < 0 ∨ now ≥ INT64_MAX_HALF) →
      (wget_hpkp_set_maxage hpkp maxage now).maxage = maxage ∧
      (wget_hpkp_set_maxage hpkp maxage now).expires = now + maxage ∧
      0 ≤ now + maxage ∧ now + maxage ≤ INT64_MAX) := by
  refine ⟨?_, ?_, ?_, ?_⟩
  · intro h
    simp [_new_hsts, if_pos h]
  · intro h
    refine ⟨by simp [_new_hsts, if_neg h], by simp [_new_hsts, if_neg h], ?_, ?_⟩
    · push_neg at h
      omega
    · push_neg at h
      have h1 := h.1
      have h2 := h.2.1
      have h4 := h.2.2.2
      simp only [INT64_MAX_HALF] at h2 h4
      simp only [INT64_MAX]
      omega
  · intro h
    simp [wget_hpkp_set_maxage, if_pos h]
  · intro h
    refine ⟨by simp [wget_hpkp_set_maxage, if_neg h], by simp [wget_hpkp_set_maxage, if_neg h], ?_, ?_⟩
    · push_neg at h
      omega
    · push_neg at h
      have h2 := h.2.1
      have h4 := h.2.2.2
      simp only [INT64_MAX_HALF] at h2 h4
      simp only [INT64_MAX]
      omega

/-- C7 witness: created 100 and maxage 50 pass the guard and give
expires 150 without overflow. -/
theorem C7_overflow_clamp_witness :
    (_new_hsts ['h'] 443 50 false 100).maxage = 50 ∧
    (_new_hsts ['h'] 443 50 false 100).expires = 100 + 50 ∧
    (0:Int) ≤ 100 + 50 ∧ (100:Int) + 50 ≤ INT64_MAX := by
  exact (C7_overflow_clamp ['h'] 443 50 false 100 (wget_hpkp_new 0) 0).2.1 (by decide)

/-! ## Upsert-overwrite lemmas -/

theorem hsts_get_map_upd (entries : List wget_hsts_t) (k old : wget_hsts_t)
    (upd : wget_hsts_t → wget_hsts_t)
    (hu : hstsKeysUnique entries) (hold : old ∈ entries)
    (hk : _compare_hsts old k = 0)
    (hupd : ∀ e, _compare_hsts e k = 0 → _compare_hsts (upd e) k = 0) :
    wget_hashmap_get_hsts
      (entries.map (fun e => if _compare_hsts e k = 0 then upd e else e)) k =
      some (upd old) := by
  induction entries with
  | nil => cases hold
  | cons a rest ih =>
    replace hu := List.pairwise_cons.mp hu
    by_cases ha : _compare_hsts a k = 0
    · have : a = old := by
        rcases List.mem_cons.mp hold with h | h
        · exact h.symm
        · exact absurd (_compare_hsts_key_trans ha hk) (hu.1 old h)
      subst this
      simp [wget_hashmap_get_hsts, List.find?_cons, ha, hupd a ha]
    · have hmem : old ∈ rest := by
        rcases List.mem_cons.mp hold with h | h
        · exact absurd (h ▸ hk) ha
        · exact h
      have := ih hu.2 hmem
      simpa [wget_hashmap_get_hsts, List.find?_cons, ha] using this

theorem hpkp_get_map_upd (entries : List wget_hpkp_t) (k old : wget_hpkp_t)
    (upd : wget_hpkp_t → wget_hpkp_t)
    (hu : hpkpKeysUnique entries) (hold : old ∈ entries)
    (hk : _compare_hpkp old k = 0)
    (hupd : ∀ e, _compare_hpkp e k = 0 → _compare_hpkp (upd e) k = 0) :
    wget_hashmap_get_hpkp
      (entries.map (fun e => if _compare_hpkp e k = 0 then upd e else e)) k =
      some (upd old) := by
  induction entries with
  | nil => cases hold
  | cons a rest ih =>
    replace hu := List.pairwise_cons.mp hu
    by_cases ha : _compare_hpkp a k = 0
    · have : a = old := by
        rcases List.mem_cons.mp hold with h | h
        · exact h.symm
        · exact absurd (_compare_hpkp_key_trans ha hk) (hu.1 old h)
      subst this
      simp [wget_hashmap_get_hpkp, List.find?_cons, ha, hupd a ha]
    · have hmem : old ∈ rest := by
        rcases List.mem_cons.mp hold with h | h
        · exact absurd (h ▸ hk) ha
        · exact h
      have := ih hu.2 hmem
      simpa [wget_hashmap_get_hpkp, List.find?_cons, ha] using this

/-- C5 counterexample: the HSTS overwrite is guarded. An incoming record
with positive maxage whose creation time is *older* than the stored one
(and equal maxage and include_subdomains) is silently dropped, leaving
the stored created/expires untouched, contrary to the claimed
unconditional copy. -/
theorem C5_overwrite_counterexample :
    (0:Int) < 10 ∧
    _hsts_db_add_entry
      [{ host := ['a'], expires := 110, created := 100, maxage := 10,
         port := 443, include_subdomains := false }]
      { host := ['a'], expires := 60, created := 50, maxage := 10,
        port := 443, include_subdomains := false } =
      [{ host := ['a'], expires := 110, created := 100, maxage := 10,
         port := 443, include_subdomains := false }] ∧
    ({ host := ['a'], expires := 110, created := 100, maxage := 10,
       port := 443, include_subdomains := false } : wget_hsts_t).created ≠ (50:Int) := by
  decide

/-- C5 as amended: for HSTS the copy of created/maxage/expires/
include_subdomains into the existing entry happens exactly under the
staleness guard (`old.created < new.created`, or different maxage, or
different include_subdomains); otherwise the existing entry is left
unchanged. For HPKP the copy, including the wholesale pin-set
replacement, is unconditional. Entries with other keys survive in both
stores. -/
theorem C5_overwrite_amended :
    (∀ (entries : List wget_hsts_t) (hsts old : wget_hsts_t),
      hstsKeysUnique entries → old ∈ entries → _compare_hsts old hsts = 0 →
      hsts.maxage ≠ 0 →
      ((old.created < hsts.created ∨ old.maxage ≠ hsts.maxage ∨
          old.include_subdomains ≠ hsts.include_subdomains) →
        wget_hashmap_get_hsts (_hsts_db_add_entry entries hsts) hsts =
          some { old with created := hsts.created, expires := hsts.expires,
                          maxage := hsts.maxage,
                          include_subdomains := hsts.include_subdomains }) ∧
      (¬(old.created < hsts.created ∨ old.maxage ≠ hsts.maxage ∨
          old.include_subdomains ≠ hsts.include_subdomains) →
        wget_hashmap_get_hsts (_hsts_db_add_entry entries hsts) hsts = some old) ∧
      (∀ e ∈ entries, _compare_hsts e hsts ≠ 0 → e ∈ _hsts_db_add_entry entries hsts)) ∧
    (∀ (entries : List wget_hpkp_t) (hpkp old : wget_hpkp_t),
      hpkpKeysUnique entries → old ∈ entries → _compare_hpkp old hpkp = 0 →
      hpkp.maxage ≠ 0 → hpkp.pins.length ≠ 0 →
      wget_hashmap_get_hpkp (impl_hpkp_db_add entries hpkp) hpkp =
        some { old with created := hpkp.created, maxage := hpkp.maxage,
                        expires := hpkp.expires,
                        include_subdomains := hpkp.include_subdomains,
                        pins := hpkp.pins } ∧
      (∀ e ∈ entries, _compare_hpkp e hpkp ≠ 0 → e ∈ impl_hpkp_db_add entries hpkp)) := by
  constructor
  · intro entries hsts old hu hold hk hmax
    have hsome : wget_hashmap_get_hsts entries hsts = some old :=
      hsts_get_eq_some hu hold hk
    have himpl : _hsts_db_add_entry entries hsts =
        entries.map (fun e =>
          if _compare_hsts e hsts = 0 then
            (if e.created < hsts.created ∨ e.maxage ≠ hsts.maxage ∨
                e.include_subdomains ≠ hsts.include_subdomains then
              { e with created := hsts.created, expires := hsts.expires,
                       maxage := hsts.maxage,
                       include_subdomains := hsts.include_subdomains }
            else e)
          else e) := by
      unfold _hsts_db_add_entry
      rw [if_neg hmax, hsome]
    have hupd : ∀ e : wget_hsts_t, _compare_hsts e hsts = 0 →
        _compare_hsts
          (if e.created < hsts.created ∨ e.maxage ≠ hsts.maxage ∨
              e.include_subdomains ≠ hsts.include_subdomains then
            { e with created := hsts.created, expires := hsts.expires,
                     maxage := hsts.maxage,
                     include_subdomains := hsts.include_subdomains }
          else e) hsts = 0 := by
      intro e he
      by_cases hg : e.created < hsts.created ∨ e.maxage ≠ hsts.maxage ∨
          e.include_subdomains ≠ hsts.include_subdomains
      · rw [if_pos hg]
        rw [_compare_hsts_eq_zero_iff] at he ⊢
        exact he
      · rw [if_neg hg]
        exact he
    have hmap := hsts_get_map_upd entries hsts old _ hu hold hk hupd
    refine ⟨?_, ?_, ?_⟩
    · intro hg
      rw [himpl, hmap, if_pos hg]
    · intro hg
      rw [himpl, hmap, if_neg hg]
    · intro e he hne
      rw [himpl]
      exact List.mem_map.mpr ⟨e, he, by rw [if_neg hne]⟩
  · intro entries hpkp old hu hold hk hmax hpins
    have hsome : wget_hashmap_get_hpkp entries hpkp = some old :=
      hpkp_get_eq_some hu hold hk
    have himpl : impl_hpkp_db_add entries hpkp =
        entries.map (fun e =>
          if _compare_hpkp e hpkp = 0 then
            { e with created := hpkp.created, maxage := hpkp.maxage,
                     expires := hpkp.expires,
                     include_subdomains := hpkp.include_subdomains,
                     pins := hpkp.pins }
          else e) := by
      unfold impl_hpkp_db_add
      rw [if_neg (by
        intro h
        rcases h with h | h
        · exact hmax h
        · exact hpins h), hsome]
    have hupd : ∀ e : wget_hpkp_t, _compare_hpkp e hpkp = 0 →
        _compare_hpkp
          ({ e with created := hpkp.created, maxage := hpkp.maxage,
                    expires := hpkp.expires,
                    include_subdomains := hpkp.include_subdomains,
                    pins := hpkp.pins }) hpkp = 0 := by
      intro e he
      rw [_compare_hpkp_eq_zero_iff] at he ⊢
      exact he
    have hmap := hpkp_get_map_upd entries hpkp old _ hu hold hk hupd
    refine ⟨?_, ?_⟩
    · rw [himpl, hmap]
    · intro e he hne
      rw [himpl]
      exact List.mem_map.mpr ⟨e, he, by rw [if_neg hne]⟩

/-- C5 amended witness: an HPKP overwrite copies every field and the
whole pin set. -/
theorem C5_overwrite_amended_witness :
    wget_hashmap_get_hpkp
      (impl_hpkp_db_add
        [{ host := ['a'], expires := 9, created := 1, maxage := 8,
           include_subdomains := false,
           pins := [{ pin_b64 := ['o'], pin := [1], hash_type := ['t'], pinsize := 1 }] }]
        { host := ['a'], expires := 20, created := 2, maxage := 18,
          include_subdomains := true,
          pins := [{ pin_b64 := ['n'], pin := [2], hash_type := ['t'], pinsize := 1 }] })
      { host := ['a'], expires := 20, created := 2, maxage := 18,
        include_subdomains := true,
        pins := [{ pin_b64 := ['n'], pin := [2], hash_type := ['t'], pinsize := 1 }] } =
      some { host := ['a'], expires := 20, created := 2, maxage := 18,
             include_subdomains := true,
             pins := [{ pin_b64 := ['n'], pin := [2], hash_type := ['t'], pinsize := 1 }] } := by
  have h := (C5_overwrite_amended.2
    [{ host := ['a'], expires := 9, created := 1, maxage := 8,
       include_subdomains := false,
       pins := [{ pin_b64 := ['o'], pin := [1], hash_type := ['t'], pinsize := 1 }] }]
    { host := ['a'], expires := 20, created := 2, maxage := 18,
      include_subdomains := true,
      pins := [{ pin_b64 := ['n'], pin := [2], hash_type := ['t'], pinsize := 1 }] }
    { host := ['a'], expires := 9, created := 1, maxage := 8,
      include_subdomains := false,
      pins := [{ pin_b64 := ['o'], pin := [1], hash_type := ['t'], pinsize := 1 }] }
    (by simp) (by simp) (by decide) (by decide) (by decide)).1
  simpa using h

/-! ## Pin-set deduplication -/

theorem vector_add_noalloc_pairwise (v : List wget_hpkp_pin_t)
    (p : wget_hpkp_pin_t)
    (h : v.Pairwise (fun a b => _compare_pin a b ≠ 0)) :
    (wget_vector_add_noalloc v p).Pairwise (fun a b => _compare_pin a b ≠ 0) := by
  unfold wget_vector_add_noalloc
  by_cases hany : v.any (fun q => _compare_pin q p = 0)
  · rw [if_pos hany]
    exact h
  · rw [if_neg hany]
    rw [List.pairwise_append]
    refine ⟨h, List.pairwise_singleton _ _, ?_⟩
    intro a ha b hb
    rw [List.mem_singleton] at hb
    subst hb
    rw [List.any_eq_true] at hany
    push_neg at hany
    intro hc
    exact hany a ha (by simpa using hc)

theorem pin_add_pairwise (b64decode : List Char → List Nat)
    (hpkp : wget_hpkp_t) (ht pb : List Char)
    (h : hpkp.pins.Pairwise (fun a b => _compare_pin a b ≠ 0)) :
    (wget_hpkp_pin_add b64decode hpkp ht pb).pins.Pairwise
      (fun a b => _compare_pin a b ≠ 0) := by
  unfold wget_hpkp_pin_add
  exact vector_add_noalloc_pairwise _ _ h

/-- C6: the pin set stays duplicate-free under the pin comparator after
any sequence of `wget_hpkp_pin_add` calls on a fresh entry; adding the
same (hash type, base64 pin) twice leaves a single pin. -/
theorem C6_pin_dedup :
    (∀ (b64decode : List Char → List Nat)
        (inputs : List (List Char × List Char)) (created : Int),
      (inputs.foldl (fun h i => wget_hpkp_pin_add b64decode h i.1 i.2)
        (wget_hpkp_new created)).pins.Pairwise
          (fun p q => _compare_pin p q ≠ 0)) ∧
    (∀ (b64decode : List Char → List Nat) (hpkp : wget_hpkp_t)
        (ht pb : List Char),
      hpkp.pins = [] →
      (wget_hpkp_pin_add b64decode
        (wget_hpkp_pin_add b64decode hpkp ht pb) ht pb).pins.length = 1) := by
  constructor
  · intro b64decode inputs created
    have hgen : ∀ (l : List (List Char × List Char)) (h : wget_hpkp_t),
        h.pins.Pairwise (fun p q => _compare_pin p q ≠ 0) →
        (l.foldl (fun h i => wget_hpkp_pin_add b64decode h i.1 i.2) h).pins.Pairwise
          (fun p q => _compare_pin p q ≠ 0) := by
      intro l
      induction l with
      | nil => intro h hp; exact hp
      | cons i rest ih =>
        intro h hp
        exact ih _ (pin_add_pairwise b64decode h i.1 i.2 hp)
    exact hgen inputs (wget_hpkp_new created) (by simp [wget_hpkp_new])
  · intro b64decode hpkp ht pb hpins
    simp [wget_hpkp_pin_add, wget_vector_add_noalloc, hpins, _compare_pin_self]

/-- C6 witness: a concrete double add of the same pin. -/
theorem C6_pin_dedup_witness :
    (wget_hpkp_pin_add (fun l => l.map Char.toNat)
      (wget_hpkp_pin_add (fun l => l.map Char.toNat)
        (wget_hpkp_new 7) "sha256".toList "cGlu".toList)
      "sha256".toList "cGlu".toList).pins.length = 1 := by
  exact C6_pin_dedup.2 (fun l => l.map Char.toNat) (wget_hpkp_new 7)
    "sha256".toList "cGlu".toList rfl

/-! ## The check_pubkey decision -/

theorem walk_none_iff (entries : List wget_hpkp_t) (domain : List Char)
    (sub : Bool) :
    hpkpDomainWalk entries domain sub = none ↔
      ∀ d ∈ probedDomains domain,
        wget_hashmap_get_hpkp entries (hpkpKey d) = none := by
  match domain with
  | [] => simp [hpkpDomainWalk, probedDomains]
  | c :: rest =>
    rw [hpkpDomainWalk, probedDomains]
    cases hget : wget_hashmap_get_hpkp entries (hpkpKey (stripDots (c :: rest))) with
    | some e =>
      simp only [hget]
      constructor
      · intro h
        cases h
      · intro h
        have := h (stripDots (c :: rest)) (List.mem_cons_self _ _)
        rw [hget] at this
        cases this
    | none =>
      simp only [hget]
      rw [walk_none_iff entries (strchrnulDot (stripDots (c :: rest))) true]
      constructor
      · intro h d hd
        rcases List.mem_cons.mp hd with rfl | hd
        · exact hget
        · exact h d hd
      · intro h d hd
        exact h d (List.mem_cons_of_mem _ hd)
termination_by domain.length
decreasing_by
  simp only [List.length_cons]
  exact walk_measure c rest

theorem vector_find_neg_one_or_nonneg (v : List wget_hpkp_pin_t)
    (p : wget_hpkp_pin_t) :
    wget_vector_find v p = -1 ∨ 0 ≤ wget_vector_find v p := by
  induction v with
  | nil => exact Or.inl rfl
  | cons a rest ih =>
    by_cases ha : _compare_pin a p = 0
    · right
      simp [wget_vector_find, ha]
    · rcases ih with h | h
      · left
        simp [wget_vector_find, ha, h]
      · right
        by_cases hr : wget_vector_find rest p = -1
        · omega
        · simp only [wget_vector_find, ha, if_false, if_neg hr]
          omega

theorem vector_find_ne_neg_one_iff (v : List wget_hpkp_pin_t)
    (p : wget_hpkp_pin_t) :
    wget_vector_find v p ≠ -1 ↔ ∃ q ∈ v, _compare_pin q p = 0 := by
  induction v with
  | nil => simp [wget_vector_find]
  | cons a rest ih =>
    by_cases ha : _compare_pin a p = 0
    · constructor
      · intro _
        exact ⟨a, List.mem_cons_self a rest, ha⟩
      · intro _
        simp [wget_vector_find, ha]
    · constructor
      · intro h
        have hr : wget_vector_find rest p ≠ -1 := by
          intro hr
          apply h
          simp [wget_vector_find, ha, hr]
        rcases ih.mp hr with ⟨q, hq, hc⟩
        exact ⟨q, List.mem_cons_of_mem a hq, hc⟩
      · rintro ⟨q, hq, hc⟩
        rcases List.mem_cons.mp hq with rfl | hq
        · exact absurd hc ha
        · have hr := ih.mpr ⟨q, hq, hc⟩
          have hnn := vector_find_neg_one_or_nonneg rest p
          simp only [wget_vector_find, ha, if_false, if_neg hr]
          omega

theorem memcmpN_eq_zero_iff (n : Nat) (xs ys : List Nat)
    (hx : xs.length = n) (hy : ys.length = n) :
    memcmpN n xs ys = 0 ↔ xs = ys := by
  induction n generalizing xs ys with
  | zero =>
    rw [List.length_eq_zero] at hx hy
    subst hx
    subst hy
    simp [memcmpN]
  | succ m ih =>
    cases xs with
    | nil => simp at hx
    | cons x xt =>
      cases ys with
      | nil => simp at hy
      | cons y yt =>
        simp only [List.length_cons] at hx hy
        rcases Nat.lt_trichotomy x y with hlt | heq | hgt
        · have hne : x ≠ y := Nat.ne_of_lt hlt
          simp [memcmpN, hlt, hne]
        · subst heq
          simp [memcmpN, ih xt yt (by omega) (by omega)]
        · have hne : x ≠ y := (Nat.ne_of_lt hgt).symm
          simp [memcmpN, Nat.lt_asymm hgt, hgt, hne]

theorem compare_pin_sha_iff (p : wget_hpkp_pin_t) (digest : List Nat)
    (hp : p.pinsize = p.pin.length) (hd : digest.length = 32) :
    _compare_pin p { pin := digest, pinsize := sha256_digest_len,
                     hash_type := sha256_type, pin_b64 := [] } = 0 ↔
      (p.hash_type = sha256_type ∧ p.pin = digest) := by
  unfold _compare_pin
  by_cases h1 : strcmpChar p.hash_type sha256_type = 0
  · have hht : p.hash_type = sha256_type := (strcmpChar_eq_zero_iff _ _).mp h1
    simp only [hht, strcmpChar_self, ne_eq, not_true_eq_false, if_false,
      true_and, sha256_digest_len]
    rcases Nat.lt_trichotomy p.pinsize 32 with hlt | heq | hgt
    · have hlen : p.pin ≠ digest := by
        intro h
        have : p.pinsize = 32 := by rw [hp, h, hd]
        omega
      simp [hlt, hlen, strcmpChar_self]
    · have hmem := memcmpN_eq_zero_iff p.pinsize p.pin digest (by omega) (by omega)
      simp [heq, strcmpChar_self]
      rw [heq] at hmem
      exact hmem
    · have hlen : p.pin ≠ digest := by
        intro h
        have : p.pinsize = 32 := by rw [hp, h, hd]
        omega
      simp [Nat.lt_asymm hgt, hgt, hlen, strcmpChar_self]
  · simp only [ne_eq, h1, not_false_eq_true, if_true]
    constructor
    · intro hz
      exact hz.elim
    · intro hcon
      exact absurd ((strcmpChar_eq_zero_iff _ _).mpr hcon.1) h1

/-- C1: the check_pubkey decision. When every probed suffix of the host
misses, the result is UNKNOWN (0) — and the walk misses exactly when all
probes do; when the first hit happened after at least one miss and that
entry does not include subdomains, UNKNOWN; otherwise a digest failure
gives INTERNAL_ERROR (-1); otherwise PINNED (1) exactly when the pin set
contains a sha256 pin whose bytes equal the digest of the public key,
and HOST_NOT_PINNED (-2) otherwise. -/
theorem C1_check_pubkey_decision (hashFast : List Nat → Option (List Nat))
    (entries : List wget_hpkp_t) (host : List Char) (pubkey : List Nat) :
    ((∀ d ∈ probedDomains host,
        wget_hashmap_get_hpkp entries (hpkpKey d) = none) →
      impl_hpkp_db_check_pubkey hashFast entries host pubkey = 0) ∧
    (hpkpDomainWalk entries host false = none ↔
      ∀ d ∈ probedDomains host,
        wget_hashmap_get_hpkp entries (hpkpKey d) = none) ∧
    (∀ e sub, hpkpDomainWalk entries host false = some (e, sub) →
      ((sub = true → e.include_subdomains = false →
        impl_hpkp_db_check_pubkey hashFast entries host pubkey = 0) ∧
      ((sub = false ∨ e.include_subdomains = true) →
        ((hashFast pubkey = none →
          impl_hpkp_db_check_pubkey hashFast entries host pubkey = -1) ∧
        (∀ digest, hashFast pubkey = some digest → digest.length = 32 →
          (∀ p ∈ e.pins, p.pinsize = p.pin.length) →
          impl_hpkp_db_check_pubkey hashFast entries host pubkey =
            (if ∃ p ∈ e.pins, p.hash_type = sha256_type ∧ p.pin = digest
             then 1 else -2)))))) := by
  refine ⟨?_, walk_none_iff entries host false, ?_⟩
  · intro hmiss
    have hwalk := (walk_none_iff entries host false).mpr hmiss
    unfold impl_hpkp_db_check_pubkey
    rw [hwalk]
  · intro e sub hwalk
    constructor
    · intro hs hi
      unfold impl_hpkp_db_check_pubkey
      rw [hwalk]
      simp [hs, hi]
    · intro hcond
      have hifneg : ¬(sub = true ∧ ¬(e.include_subdomains = true)) := by
        rcases hcond with h | h
        · intro hc
          rw [h] at hc
          exact absurd hc.1 (by decide)
        · intro hc
          exact hc.2 h
      constructor
      · intro hhash
        unfold impl_hpkp_db_check_pubkey
        rw [hwalk]
        simp only [if_neg hifneg, hhash]
      · intro digest hhash hd hwf
        unfold impl_hpkp_db_check_pubkey
        rw [hwalk]
        simp only [if_neg hifneg, hhash]
        have hiff : (wget_vector_find e.pins
            { pin := digest, pinsize := sha256_digest_len,
              hash_type := sha256_type, pin_b64 := [] } ≠ -1) ↔
            (∃ p ∈ e.pins, p.hash_type = sha256_type ∧ p.pin = digest) := by
          rw [vector_find_ne_neg_one_iff]
          constructor
          · rintro ⟨q, hq, hc⟩
            exact ⟨q, hq, (compare_pin_sha_iff q digest (hwf q hq) hd).mp hc⟩
          · rintro ⟨q, hq, hc⟩
            exact ⟨q, hq, (compare_pin_sha_iff q digest (hwf q hq) hd).mpr hc⟩
        exact if_congr hiff rfl rfl

/-- C1 witness: a host that is not in the database yields UNKNOWN. -/
theorem C1_check_pubkey_decision_witness :
    impl_hpkp_db_check_pubkey (fun _ => none) [] ("a.example.com".toList) [1, 2] = 0 := by
  exact (C1_check_pubkey_decision (fun _ => none) [] ("a.example.com".toList) [1, 2]).1
    (by intro d hd; rfl)

/-! ## Persistence: decimal text and tokenization -/

/-- The ASCII digit character for `d` (meaningful for d < 10). -/
def digitChar (d : Nat) : Char := Char.ofNat (48 + d)

/-- The decimal rendering a C `printf %llu`-style conversion emits. -/
def natToDec (n : Nat) : List Char :=
  if n < 10 then [digitChar n]
  else natToDec (n / 10) ++ [digitChar (n % 10)]
termination_by n
decreasing_by exact Nat.div_lt_self (by omega) (by decide)

/-- The decimal rendering of a signed value (`%lld`). -/
def intToDec (n : Int) : List Char :=
  if n < 0 then '-' :: natToDec (-n).toNat else natToDec n.toNat

/-- Accumulate decimal digits, C-style: `acc*10 + (c - '0')`. -/
def digitsFold (acc : Nat) (ds : List Char) : Nat :=
  ds.foldl (fun a c => a * 10 + (c.toNat - 48)) acc

/-- The value of the longest digit prefix (0 when there is none). -/
def digitsVal (l : List Char) : Nat :=
  digitsFold 0 (l.takeWhile Char.isDigit)

/-- Model of C `atoi`/`atoll` on the rest of the line: skip whitespace,
optional sign, then digits; no digits gives 0. -/
def atoiParse (l : List Char) : Int :=
  match l.dropWhile isspaceChar with
  | [] => 0
  | c :: r =>
    if c = '-' then -(digitsVal r : Int)
    else if c = '+' then (digitsVal r : Int)
    else (digitsVal (c :: r) : Int)

/-- The field scan of `_hsts_db_load`: the token up to the next
whitespace, and the remainder starting at that whitespace. -/
def tokenSplit : List Char → (List Char × List Char)
  | [] => ([], [])
  | c :: rest =>
    if isspaceChar c then ([], c :: rest)
    else
      let (t, r) := tokenSplit rest
      (c :: t, r)

/-! ## HSTS persistence (hsts.c) -/

/-- One line of `_hsts_db_load` from hsts.c: leading whitespace skipped,
blank lines and `#` comments ignored, then host, port (0 defaults to
443), includeSubDomains, created and maxage fields, each clamped exactly
as the C code does; lines with missing fields and already-expired
records yield no entry. -/
def hstsParseLine (line : List Char) (now : Int) : Option wget_hsts_t :=
  match line.dropWhile isspaceChar with
  | [] => none
  | c :: lrest =>
    if c = '#' then none
    else
      let (hostTok, r1) := tokenSplit (c :: lrest)
      match r1 with
      | [] => none
      | _ :: r1t =>
        let port0 := ((atoiParse r1t) % 65536).toNat
        let port := if port0 = 0 then 443 else port0
        let (_, r2) := tokenSplit r1t
        match r2 with
        | [] => none
        | _ :: r2t =>
          let includeSub := decide (atoiParse r2t ≠ 0)
          let (_, r3) := tokenSplit r2t
          match r3 with
          | [] => none
          | _ :: r3t =>
            let created0 := atoiParse r3t
            let created := if created0 < 0 ∨ created0 ≥ INT64_MAX_HALF then 0 else created0
            let (_, r4) := tokenSplit r3t
            match r4 with
            | [] => none
            | _ :: r4t =>
              let maxage0 := atoiParse r4t
              let maxage := if maxage0 < 0 ∨ maxage0 ≥ INT64_MAX_HALF then 0 else maxage0
              let expires := if maxage ≠ 0 then created + maxage else 0
              if expires < now then none
              else some { host := hostTok, port := port,
                          include_subdomains := includeSub,
                          created := created, maxage := maxage,
                          expires := expires }

/-- `_hsts_save` from hsts.c: the line
`<host> <port> <includeSubDomains> <created> <maxage>`. -/
def _hsts_save (hsts : wget_hsts_t) : List Char :=
  hsts.host ++ ' ' :: (natToDec hsts.port ++ ' ' ::
    (if hsts.include_subdomains then '1' else '0') :: ' ' ::
    (intToDec hsts.created ++ ' ' :: intToDec hsts.maxage))

/-- `_hsts_db_save` from hsts.c as a list of lines: nothing when the
store is empty, otherwise the `#` banner followed by one line per
entry (hashmap browse order = list order here). -/
def _hsts_db_save_lines (entries : List wget_hsts_t) : List (List Char) :=
  if entries.length > 0 then
    "#HSTS 1.0 file".toList ::
    "#Generated by Wget2. Edit at your own risk.".toList ::
    "# <hostname> <port> <incl. subdomains> <created> <max-age>".toList ::
    entries.map _hsts_save
  else []

/-- The line loop of `_hsts_db_load`: every parsed record goes through
`_hsts_db_add_entry`; skipped lines leave the store alone. -/
def _hsts_db_load_lines (entries : List wget_hsts_t)
    (lines : List (List Char)) (now : Int) : List wget_hsts_t :=
  lines.foldl (fun es line =>
    match hstsParseLine line now with
    | some h => _hsts_db_add_entry es h
    | none => es) entries

/-- The store state of `_hsts_db_impl_t` relevant to loading. -/
structure _hsts_db_impl_t where
  entries : List wget_hsts_t
  load_time : Int
deriving DecidableEq, Repr

/-- `_hsts_db_load` from hsts.c: compare the file mtime against the
cached load time (equal means return 0 without reading); otherwise
record the mtime, run the line loop, and on a stream error (`ferror`)
reset the cached load time to 0 and return -1, else return 0. -/
def _hsts_db_load (db : _hsts_db_impl_t) (mtime : Int)
    (lines : List (List Char)) (readError : Bool) (now : Int) :
    _hsts_db_impl_t × Int :=
  if mtime = db.load_time then (db, 0)
  else
    let entries := _hsts_db_load_lines db.entries lines now
    if readError then ({ entries := entries, load_time := 0 }, -1)
    else ({ entries := entries, load_time := mtime }, 0)

/-! ## HPKP persistence (hpkp.c) -/

/-- Model of one `%<width>s` conversion of `sscanf`: skip whitespace and
read at most `width` non-whitespace characters; fails at end of input. -/
def scanString (width : Nat) (l : List Char) : Option (List Char × List Char) :=
  let l1 := l.dropWhile isspaceChar
  let tok := (l1.takeWhile (fun c => !isspaceChar c)).take width
  if tok.isEmpty then none else some (tok, l1.drop tok.length)

/-- The digit run of a `%d`/`%lld` conversion; fails without digits. -/
def scanDigits (l : List Char) : Option (Nat × List Char) :=
  let ds := l.takeWhile Char.isDigit
  if ds.isEmpty then none else some (digitsFold 0 ds, l.drop ds.length)

/-- Model of one `%d`/`%lld` conversion of `sscanf`. -/
def scanInt (l : List Char) : Option (Int × List Char) :=
  match l.dropWhile isspaceChar with
  | [] => none
  | c :: r =>
    if c = '-' then (scanDigits r).map (fun x => (-(x.1 : Int), x.2))
    else if c = '+' then (scanDigits r).map (fun x => ((x.1 : Int), x.2))
    else (scanDigits (c :: r)).map (fun x => ((x.1 : Int), x.2))

/-- `sscanf(linep, "%255s %d %lld %lld", ...) == 4` of `_hpkp_db_load`. -/
def hpkpParseHostLine (linep : List Char) :
    Option (List Char × Int × Int × Int) :=
  match scanString 255 linep with
  | none => none
  | some (host, r1) =>
    match scanInt r1 with
    | none => none
    | some (incl, r2) =>
      match scanInt r2 with
      | none => none
      | some (created, r3) =>
        match scanInt r3 with
        | none => none
        | some (maxage, _) => some (host, incl, created, maxage)

/-- `sscanf(linep, "*%31s %255s", ...) == 2` of `_hpkp_db_load`. -/
def hpkpParsePinLine (linep : List Char) : Option (List Char × List Char) :=
  match linep with
  | '*' :: r =>
    match scanString 31 r with
    | none => none
    | some (ht, r1) =>
      match scanString 255 r1 with
      | none => none
      | some (pb, _) => some (ht, pb)
  | _ => none

/-- One line of the `_hpkp_db_load` loop, acting on (entry set, current
record): comments and blank lines are skipped; a non-`*` line first
flushes the current record through the upsert and then starts a new one
when it parses and is not expired; a `*` line adds a pin to the current
record (and is skipped when there is none, or on a parse error). -/
def hpkpLoadStep (b64decode : List Char → List Nat) (now : Int)
    (st : List wget_hpkp_t × Option wget_hpkp_t) (line : List Char) :
    List wget_hpkp_t × Option wget_hpkp_t :=
  match line.dropWhile isspaceChar with
  | [] => st
  | c :: lrest =>
    if c = '#' then st
    else if c ≠ '*' then
      let entries := wget_hpkp_db_add_opt st.1 st.2
      match hpkpParseHostLine (c :: lrest) with
      | some (host, incl, created, maxage) =>
        let maxage1 := if created < 0 ∨ maxage < 0 ∨
            created ≥ INT64_MAX_HALF ∨ maxage ≥ INT64_MAX_HALF then 0 else maxage
        let expires := created + maxage1
        if maxage1 ≠ 0 ∧ expires ≥ now then
          (entries, some { host := host, maxage := maxage1, created := created,
                           expires := expires,
                           include_subdomains := decide (incl ≠ 0),
                           pins := [] })
        else (entries, none)
      | none => (entries, none)
    else
      match st.2 with
      | some hpkp =>
        match hpkpParsePinLine (c :: lrest) with
        | some (ht, pb) => (st.1, some (wget_hpkp_pin_add b64decode hpkp ht pb))
        | none => st
      | none => st

/-- The whole line loop of `_hpkp_db_load`, with the final flush of the
pending record after the last line. -/
def _hpkp_db_load_lines (b64decode : List Char → List Nat)
    (entries : List wget_hpkp_t) (lines : List (List Char)) (now : Int) :
    List wget_hpkp_t :=
  let st := lines.foldl (hpkpLoadStep b64decode now) (entries, none)
  wget_hpkp_db_add_opt st.1 st.2

/-- The store state of `_hpkp_db_impl_t` relevant to loading. -/
structure _hpkp_db_impl_t where
  entries : List wget_hpkp_t
  load_time : Int

/-- `_hpkp_db_load` from hpkp.c: mtime check, line loop, and the
`ferror` handling (reset cached load time, return -1). -/
def _hpkp_db_load (b64decode : List Char → List Nat)
    (db : _hpkp_db_impl_t) (mtime : Int) (lines : List (List Char))
    (readError : Bool) (now : Int) : _hpkp_db_impl_t × Int :=
  if mtime = db.load_time then (db, 0)
  else
    let entries := _hpkp_db_load_lines b64decode db.entries lines now
    if readError then ({ entries := entries, load_time := 0 }, -1)
    else ({ entries := entries, load_time := mtime }, 0)

/-- `_hpkp_save_pin` from hpkp.c: the line `*<hash_type> <pin_b64>`. -/
def _hpkp_save_pin (pin : wget_hpkp_pin_t) : List Char :=
  '*' :: (pin.hash_type ++ ' ' :: pin.pin_b64)

/-- `_hpkp_save` from hpkp.c: nothing for an entry without pins or an
expired one; otherwise the host line followed by its pin lines. -/
def _hpkp_save (now : Int) (hpkp : wget_hpkp_t) : List (List Char) :=
  if hpkp.pins.length = 0 then []
  else if hpkp.expires < now then []
  else (hpkp.host ++ ' ' ::
        (if hpkp.include_subdomains then '1' else '0') :: ' ' ::
        (intToDec hpkp.created ++ ' ' :: intToDec hpkp.maxage)) ::
       hpkp.pins.map _hpkp_save_pin

/-- `_hpkp_db_save` from hpkp.c as a list of lines: banner (ending in a
blank line from the double newline) then each entry block. -/
def _hpkp_db_save_lines (now : Int) (entries : List wget_hpkp_t) :
    List (List Char) :=
  if entries.length > 0 then
    "# HPKP 1.0 file".toList ::
    "#Generated by Wget2. Edit at your own risk.".toList ::
    "#<hostname> <incl. subdomains> <created> <max-age>".toList ::
    [] ::
    (entries.map (_hpkp_save now)).flatten
  else []

/-! ## Decimal rendering and parsing agree -/

theorem digitChar_toNat {d : Nat} (h : d < 10) : (digitChar d).toNat = 48 + d := by
  interval_cases d <;> rfl

theorem digitChar_isDigit {d : Nat} (h : d < 10) : (digitChar d).isDigit = true := by
  interval_cases d <;> rfl

theorem digitChar_not_isspace {d : Nat} (h : d < 10) :
    isspaceChar (digitChar d) = false := by
  interval_cases d <;> rfl

theorem digitChar_ne_dash {d : Nat} (h : d < 10) : digitChar d ≠ '-' := by
  interval_cases d <;> decide

theorem digitChar_ne_plus {d : Nat} (h : d < 10) : digitChar d ≠ '+' := by
  interval_cases d <;> decide

theorem natToDec_chars (n : Nat) :
    ∀ c ∈ natToDec n, ∃ d, d < 10 ∧ c = digitChar d := by
  induction n using Nat.strong_induction_on with
  | _ n ih =>
    rw [natToDec]
    by_cases h : n < 10
    · rw [if_pos h]
      intro c hc
      rw [List.mem_singleton] at hc
      exact ⟨n, h, hc⟩
    · rw [if_neg h]
      intro c hc
      rcases List.mem_append.mp hc with h1 | h1
      · exact ih (n / 10) (Nat.div_lt_self (by omega) (by decide)) c h1
      · rw [List.mem_singleton] at h1
        exact ⟨n % 10, Nat.mod_lt n (by omega), h1⟩

theorem natToDec_ne_nil (n : Nat) : natToDec n ≠ [] := by
  rw [natToDec]
  by_cases h : n < 10
  · rw [if_pos h]
    simp
  · rw [if_neg h]
    simp

theorem digitsFold_append (acc : Nat) (xs ys : List Char) :
    digitsFold acc (xs ++ ys) = digitsFold (digitsFold acc xs) ys := by
  simp [digitsFold, List.foldl_append]

theorem digitsFold_natToDec (n : Nat) : ∀ acc,
    digitsFold acc (natToDec n) = acc * 10 ^ (natToDec n).length + n := by
  induction n using Nat.strong_induction_on with
  | _ n ih =>
    intro acc
    rw [natToDec]
    by_cases h : n < 10
    · rw [if_pos h]
      simp only [digitsFold, List.foldl_cons, List.foldl_nil,
        List.length_singleton, pow_one, digitChar_toNat h]
      omega
    · rw [if_neg h]
      rw [digitsFold_append]
      rw [ih (n / 10) (Nat.div_lt_self (by omega) (by decide))]
      simp only [digitsFold, List.foldl_cons, List.foldl_nil,
        List.length_append, List.length_singleton,
        digitChar_toNat (Nat.mod_lt n (by omega))]
      have h1 : 48 + n % 10 - 48 = n % 10 := by omega
      rw [h1, pow_succ]
      have h2 : (acc * 10 ^ (natToDec (n / 10)).length + n / 10) * 10 + n % 10 =
          acc * (10 ^ (natToDec (n / 10)).length * 10) + (n / 10 * 10 + n % 10) := by
        ring
      rw [h2]
      have h3 : n / 10 * 10 + n % 10 = n := by omega
      rw [h3]

theorem takeWhile_append_of (p : Char → Bool) (xs rest : List Char)
    (hxs : ∀ c ∈ xs, p c = true)
    (hrest : ∀ c, rest.head? = some c → p c = false) :
    (xs ++ rest).takeWhile p = xs := by
  induction xs with
  | nil =>
    cases rest with
    | nil => rfl
    | cons c r =>
      simp [List.takeWhile_cons, hrest c rfl]
  | cons d dt ih =>
    simp only [List.cons_append, List.takeWhile_cons,
      hxs d (List.mem_cons_self _ _), if_true, List.cons.injEq, true_and]
    exact ih (fun c hc => hxs c (List.mem_cons_of_mem _ hc))

theorem dropWhile_of_head_false (p : Char → Bool) (l : List Char)
    (h : ∀ c, l.head? = some c → p c = false) :
    l.dropWhile p = l := by
  cases l with
  | nil => rfl
  | cons c r => simp [List.dropWhile_cons, h c rfl]

theorem digitsVal_natToDec_append (n : Nat) (rest : List Char)
    (hrest : ∀ c, rest.head? = some c → c.isDigit = false) :
    digitsVal (natToDec n ++ rest) = n := by
  unfold digitsVal
  rw [takeWhile_append_of Char.isDigit (natToDec n) rest (fun c hc => by
      obtain ⟨d, hd, rfl⟩ := natToDec_chars n c hc
      exact digitChar_isDigit hd) hrest]
  have := digitsFold_natToDec n 0
  simpa using this

theorem atoiParse_natToDec_append (n : Nat) (rest : List Char)
    (hrest : ∀ c, rest.head? = some c → c.isDigit = false) :
    atoiParse (natToDec n ++ rest) = (n : Int) := by
  obtain ⟨c, t, hct⟩ : ∃ c t, natToDec n = c :: t := by
    cases h : natToDec n with
    | nil => exact absurd h (natToDec_ne_nil n)
    | cons c t => exact ⟨c, t, rfl⟩
  obtain ⟨d, hd, hcd⟩ := natToDec_chars n c (by rw [hct]; exact List.mem_cons_self _ _)
  have hdrop : (natToDec n ++ rest).dropWhile isspaceChar = c :: (t ++ rest) := by
    rw [hct, List.cons_append]
    exact dropWhile_of_head_false _ _ (fun x hx => by
      simp only [List.head?_cons, Option.some.injEq] at hx
      subst hx
      subst hcd
      exact digitChar_not_isspace hd)
  unfold atoiParse
  rw [hdrop]
  simp only [if_neg (hcd ▸ digitChar_ne_dash hd), if_neg (hcd ▸ digitChar_ne_plus hd)]
  have : (c :: (t ++ rest)) = natToDec n ++ rest := by
    rw [hct, List.cons_append]
  rw [this, digitsVal_natToDec_append n rest hrest]

theorem tokenSplit_append (tok rest : List Char)
    (htok : ∀ c ∈ tok, isspaceChar c = false)
    (hrest : ∀ c, rest.head? = some c → isspaceChar c = true) :
    tokenSplit (tok ++ rest) = (tok, rest) := by
  induction tok with
  | nil =>
    cases rest with
    | nil => rfl
    | cons c r =>
      simp [tokenSplit, hrest c rfl]
  | cons d dt ih =>
    have hd := htok d (List.mem_cons_self _ _)
    have ih2 := ih (fun c hc => htok c (List.mem_cons_of_mem _ hc))
    rw [List.cons_append]
    unfold tokenSplit
    rw [if_neg (by simp [hd]), ih2]

theorem intToDec_nonneg {n : Int} (h : 0 ≤ n) :
    intToDec n = natToDec n.toNat := by
  unfold intToDec
  rw [if_neg (not_lt.mpr h)]

/-! ## HSTS save/load round trip -/

/-- A live, well-formed HSTS entry as produced through `_new_hsts` with
a plain hostname: non-empty space-free host not opening a comment, a
real 16-bit port, in-range timestamps, consistent expiry, not expired. -/
def goodHstsEntry (e : wget_hsts_t) (now : Int) : Prop :=
  e.host ≠ [] ∧ (∀ c ∈ e.host, isspaceChar c = false) ∧
  e.host.head? ≠ some '#' ∧
  0 < e.port ∧ e.port < 65536 ∧
  0 ≤ e.created ∧ e.created < INT64_MAX_HALF ∧
  0 < e.maxage ∧ e.maxage < INT64_MAX_HALF ∧
  e.expires = e.created + e.maxage ∧ now ≤ e.expires

theorem natToDec_not_isspace (n : Nat) :
    ∀ c ∈ natToDec n, isspaceChar c = false := fun c h => by
  obtain ⟨d, hd, rfl⟩ := natToDec_chars _ c h
  exact digitChar_not_isspace hd

theorem space_head_isspace (X : List Char) :
    ∀ c, (' ' :: X).head? = some c → isspaceChar c = true := fun c hx => by
  simp only [List.head?_cons, Option.some.injEq] at hx
  subst hx
  rfl

theorem space_head_not_digit (X : List Char) :
    ∀ c, (' ' :: X).head? = some c → c.isDigit = false := fun c hx => by
  simp only [List.head?_cons, Option.some.injEq] at hx
  subst hx
  rfl

theorem hstsParseLine_fields (hostTok : List Char) (pN icN crN maN : Nat)
    (now : Int)
    (hne : hostTok ≠ []) (hns : ∀ c ∈ hostTok, isspaceChar c = false)
    (hh : ∀ c, hostTok.head? = some c → c ≠ '#') :
    hstsParseLine
      (hostTok ++ ' ' :: (natToDec pN ++ ' ' :: (natToDec icN ++ ' ' ::
        (natToDec crN ++ ' ' :: natToDec maN)))) now =
      (let port0 := (((pN : Int)) % 65536).toNat
       let port := if port0 = 0 then 443 else port0
       let includeSub := decide ((icN : Int) ≠ 0)
       let created := if (crN : Int) < 0 ∨ (crN : Int) ≥ INT64_MAX_HALF
         then 0 else (crN : Int)
       let maxage := if (maN : Int) < 0 ∨ (maN : Int) ≥ INT64_MAX_HALF
         then 0 else (maN : Int)
       let expires := if maxage ≠ 0 then created + maxage else 0
       if expires < now then none
       else some { host := hostTok, port := port,
                   include_subdomains := includeSub,
                   created := created, maxage := maxage,
                   expires := expires }) := by
  obtain ⟨hcH, htH, hhostEq⟩ : ∃ c t, hostTok = c :: t := by
    cases h : hostTok with
    | nil => exact absurd h hne
    | cons c t => exact ⟨c, t, rfl⟩
  have hcns : isspaceChar hcH = false :=
    hns hcH (by rw [hhostEq]; exact List.mem_cons_self _ _)
  have hch : hcH ≠ '#' := hh hcH (by rw [hhostEq]; rfl)
  have hcons : hostTok ++ ' ' :: (natToDec pN ++ ' ' :: (natToDec icN ++ ' ' ::
      (natToDec crN ++ ' ' :: natToDec maN))) =
      hcH :: (htH ++ ' ' :: (natToDec pN ++ ' ' :: (natToDec icN ++ ' ' ::
        (natToDec crN ++ ' ' :: natToDec maN)))) := by
    rw [hhostEq, List.cons_append]
  have htok1 : tokenSplit (hcH :: (htH ++ ' ' :: (natToDec pN ++ ' ' ::
      (natToDec icN ++ ' ' :: (natToDec crN ++ ' ' :: natToDec maN))))) =
      (hostTok, ' ' :: (natToDec pN ++ ' ' :: (natToDec icN ++ ' ' ::
        (natToDec crN ++ ' ' :: natToDec maN)))) := by
    rw [← List.cons_append, ← hhostEq]
    exact tokenSplit_append _ _ hns (space_head_isspace _)
  have hatoi1 : atoiParse (natToDec pN ++ ' ' :: (natToDec icN ++ ' ' ::
      (natToDec crN ++ ' ' :: natToDec maN))) = (pN : Int) :=
    atoiParse_natToDec_append _ _ (space_head_not_digit _)
  have htok2 : tokenSplit (natToDec pN ++ ' ' :: (natToDec icN ++ ' ' ::
      (natToDec crN ++ ' ' :: natToDec maN))) =
      (natToDec pN, ' ' :: (natToDec icN ++ ' ' ::
        (natToDec crN ++ ' ' :: natToDec maN))) :=
    tokenSplit_append _ _ (natToDec_not_isspace _) (space_head_isspace _)
  have hatoi2 : atoiParse (natToDec icN ++ ' ' ::
      (natToDec crN ++ ' ' :: natToDec maN)) = (icN : Int) :=
    atoiParse_natToDec_append _ _ (space_head_not_digit _)
  have htok3 : tokenSplit (natToDec icN ++ ' ' ::
      (natToDec crN ++ ' ' :: natToDec maN)) =
      (natToDec icN, ' ' :: (natToDec crN ++ ' ' :: natToDec maN)) :=
    tokenSplit_append _ _ (natToDec_not_isspace _) (space_head_isspace _)
  have hatoi3 : atoiParse (natToDec crN ++ ' ' :: natToDec maN) = (crN : Int) :=
    atoiParse_natToDec_append _ _ (space_head_not_digit _)
  have htok4 : tokenSplit (natToDec crN ++ ' ' :: natToDec maN) =
      (natToDec crN, ' ' :: natToDec maN) :=
    tokenSplit_append _ _ (natToDec_not_isspace _) (space_head_isspace _)
  have hatoi4 : atoiParse (natToDec maN) = (maN : Int) := by
    have := atoiParse_natToDec_append maN [] (fun c hx => by cases hx)
    simpa using this
  unfold hstsParseLine
  rw [hcons]
  rw [dropWhile_of_head_false _ _ (fun x hx => by
    simp only [List.head?_cons, Option.some.injEq] at hx
    subst hx
    exact hcns)]
  simp only [if_neg hch, htok1, hatoi1, htok2, hatoi2, htok3, hatoi3, htok4,
    hatoi4]

theorem natToDec_digit {d : Nat} (h : d < 10) : natToDec d = [digitChar d] := by
  rw [natToDec, if_pos h]

theorem hstsParseLine_format (e : wget_hsts_t) (now : Int)
    (hg : goodHstsEntry e now) :
    hstsParseLine (_hsts_save e) now = some e := by
  obtain ⟨hne, hns, hh0, hp1, hp2, hcr1, hcr2, hm1, hm2, hexp, hlive⟩ := hg
  have hh : ∀ c, e.host.head? = some c → c ≠ '#' := fun c hc hceq => by
    rw [hceq] at hc
    exact hh0 hc
  have hicN : natToDec (if e.include_subdomains then 1 else 0) =
      [(if e.include_subdomains then '1' else '0' : Char)] := by
    rw [natToDec_digit (by cases e.include_subdomains <;> norm_num)]
    cases e.include_subdomains <;> decide
  have hsave : _hsts_save e =
      e.host ++ ' ' :: (natToDec e.port ++ ' ' ::
        (natToDec (if e.include_subdomains then 1 else 0) ++ ' ' ::
          (natToDec e.created.toNat ++ ' ' :: natToDec e.maxage.toNat))) := by
    unfold _hsts_save
    rw [hicN, intToDec_nonneg hcr1, intToDec_nonneg (le_of_lt hm1)]
    simp
  rw [hsave, hstsParseLine_fields e.host e.port _ _ _ now hne hns hh]
  have hcast_cr : ((e.created.toNat : Int)) = e.created := Int.toNat_of_nonneg hcr1
  have hcast_ma : ((e.maxage.toNat : Int)) = e.maxage :=
    Int.toNat_of_nonneg (le_of_lt hm1)
  have hport : (((e.port : Int)) % 65536).toNat = e.port := by
    rw [Int.emod_eq_of_lt (by positivity) (by exact_mod_cast hp2)]
    simp
  have hp0 : ¬(e.port = 0) := by omega
  have hclampcr : ¬(e.created < 0 ∨ e.created ≥ INT64_MAX_HALF) := by
    simp only [INT64_MAX_HALF] at hcr2 ⊢
    omega
  have hclampma : ¬(e.maxage < 0 ∨ e.maxage ≥ INT64_MAX_HALF) := by
    simp only [INT64_MAX_HALF] at hm2 ⊢
    omega
  have hma0 : ¬(e.maxage = 0) := by omega
  have hnotexp : ¬(e.created + e.maxage < now) := by
    rw [← hexp]
    omega
  have hinc : decide ((((if e.include_subdomains then 1 else 0 : Nat)) : Int) ≠ 0) =
      e.include_subdomains := by
    cases e.include_subdomains <;> decide
  simp only [hcast_cr, hcast_ma, hport, hp0, hclampcr, hclampma, hma0, hnotexp,
    hinc, if_false, if_true, ite_false, ite_true, not_false_eq_true, ne_eq,
    decide_False, decide_True]
  rw [← hexp]

theorem hsts_load_skip (pre : List wget_hsts_t) (line : List Char)
    (lines : List (List Char)) (now : Int)
    (h : hstsParseLine line now = none) :
    _hsts_db_load_lines pre (line :: lines) now =
      _hsts_db_load_lines pre lines now := by
  unfold _hsts_db_load_lines
  rw [List.foldl_cons]
  simp only [h]

theorem hsts_load_save_fold (now : Int) :
    ∀ (entries pre : List wget_hsts_t),
      hstsKeysUnique (pre ++ entries) →
      (∀ e ∈ entries, goodHstsEntry e now) →
      _hsts_db_load_lines pre (entries.map _hsts_save) now = pre ++ entries := by
  intro entries
  induction entries with
  | nil =>
    intro pre _ _
    simp [_hsts_db_load_lines]
  | cons e rest ih =>
    intro pre hu hgood
    have hge : goodHstsEntry e now := hgood e (List.mem_cons_self _ _)
    have hparse := hstsParseLine_format e now hge
    have hma : ¬(e.maxage = 0) := by
      obtain ⟨-, -, -, -, -, -, -, hm1, -, -, -⟩ := hge
      omega
    have hget : wget_hashmap_get_hsts pre e = none := by
      apply hsts_get_eq_none
      intro p hp
      exact (List.pairwise_append.mp hu).2.2 p hp e (List.mem_cons_self _ _)
    have hstep : _hsts_db_add_entry pre e = pre ++ [e] := by
      unfold _hsts_db_add_entry
      rw [if_neg hma, hget]
    have hcons : _hsts_db_load_lines pre ((e :: rest).map _hsts_save) now =
        _hsts_db_load_lines (_hsts_db_add_entry pre e) (rest.map _hsts_save) now := by
      unfold _hsts_db_load_lines
      rw [List.map_cons, List.foldl_cons]
      simp only [hparse]
    have hu2 : hstsKeysUnique ((pre ++ [e]) ++ rest) := by
      rw [List.append_assoc, List.singleton_append]
      exact hu
    rw [hcons, hstep,
      ih (pre ++ [e]) hu2 (fun x hx => hgood x (List.mem_cons_of_mem _ hx)),
      List.append_assoc, List.singleton_append]

/-! ## HPKP save/load round trip -/

theorem scanString_append (width : Nat) (tok rest : List Char)
    (hne : tok ≠ []) (hlen : tok.length ≤ width)
    (htok : ∀ c ∈ tok, isspaceChar c = false)
    (hrest : ∀ c, rest.head? = some c → isspaceChar c = true) :
    scanString width (tok ++ rest) = some (tok, rest) := by
  have hdrop : (tok ++ rest).dropWhile isspaceChar = tok ++ rest := by
    apply dropWhile_of_head_false
    intro x hx
    cases tok with
    | nil => exact absurd rfl hne
    | cons c t =>
      rw [List.cons_append] at hx
      simp only [List.head?_cons, Option.some.injEq] at hx
      subst hx
      exact htok c (List.mem_cons_self _ _)
  have htake : (tok ++ rest).takeWhile (fun c => !isspaceChar c) = tok :=
    takeWhile_append_of _ _ _ (fun c hc => by simp [htok c hc])
      (fun c hc => by simp [hrest c hc])
  have hempty : tok.isEmpty = false := by
    cases tok with
    | nil => exact absurd rfl hne
    | cons c t => rfl
  unfold scanString
  simp only [hdrop, htake, List.take_of_length_le hlen, hempty,
    Bool.false_eq_true, if_false, List.drop_left]

theorem scanString_cons_space (width : Nat) (l : List Char) :
    scanString width (' ' :: l) = scanString width l := by
  unfold scanString
  rw [List.dropWhile_cons]
  simp only [show isspaceChar ' ' = true from rfl, if_true]

theorem scanDigits_natToDec (n : Nat) (rest : List Char)
    (hrest : ∀ c, rest.head? = some c → c.isDigit = false) :
    scanDigits (natToDec n ++ rest) = some (n, rest) := by
  unfold scanDigits
  rw [takeWhile_append_of Char.isDigit _ _ (fun c hc => by
      obtain ⟨d, hd, rfl⟩ := natToDec_chars _ c hc
      exact digitChar_isDigit hd) hrest]
  have hval : digitsFold 0 (natToDec n) = n := by
    have := digitsFold_natToDec n 0
    simpa using this
  have hnempty : (natToDec n).isEmpty = false := by
    cases h : natToDec n with
    | nil => exact absurd h (natToDec_ne_nil n)
    | cons c t => rfl
  simp only [hnempty, Bool.false_eq_true, if_false, hval, List.drop_left]

theorem scanInt_space (n : Nat) (rest : List Char)
    (hrest : ∀ c, rest.head? = some c → c.isDigit = false) :
    scanInt (' ' :: (natToDec n ++ rest)) = some ((n : Int), rest) := by
  obtain ⟨c, t, hct⟩ : ∃ c t, natToDec n = c :: t := by
    cases h : natToDec n with
    | nil => exact absurd h (natToDec_ne_nil n)
    | cons c t => exact ⟨c, t, rfl⟩
  obtain ⟨d, hd, hcd⟩ := natToDec_chars n c (by rw [hct]; exact List.mem_cons_self _ _)
  have hdrop : (' ' :: (natToDec n ++ rest)).dropWhile isspaceChar =
      c :: (t ++ rest) := by
    rw [List.dropWhile_cons, if_pos (by rfl), hct, List.cons_append]
    exact dropWhile_of_head_false _ _ (fun x hx => by
      simp only [List.head?_cons, Option.some.injEq] at hx
      subst hx
      subst hcd
      exact digitChar_not_isspace hd)
  unfold scanInt
  rw [hdrop]
  simp only [if_neg (hcd ▸ digitChar_ne_dash hd), if_neg (hcd ▸ digitChar_ne_plus hd)]
  rw [show c :: (t ++ rest) = natToDec n ++ rest from by rw [hct, List.cons_append]]
  rw [scanDigits_natToDec n rest hrest]
  rfl

theorem hpkpParseHostLine_fields (hostTok : List Char) (icN crN maN : Nat)
    (hne : hostTok ≠ []) (hlen : hostTok.length ≤ 255)
    (hns : ∀ c ∈ hostTok, isspaceChar c = false) :
    hpkpParseHostLine (hostTok ++ ' ' :: (natToDec icN ++ ' ' ::
      (natToDec crN ++ ' ' :: natToDec maN))) =
      some (hostTok, ((icN : Int), (crN : Int), (maN : Int))) := by
  unfold hpkpParseHostLine
  rw [scanString_append 255 hostTok _ hne hlen hns (space_head_isspace _)]
  simp only [scanInt_space icN _ (space_head_not_digit _),
    scanInt_space crN _ (space_head_not_digit _)]
  rw [show (' ' :: natToDec maN : List Char) = ' ' :: (natToDec maN ++ []) from by simp]
  simp only [scanInt_space maN [] (fun c hc => by cases hc)]

theorem hpkpParsePinLine_fields (ht pb : List Char)
    (hht_ne : ht ≠ []) (hht_len : ht.length ≤ 31)
    (hht_ns : ∀ c ∈ ht, isspaceChar c = false)
    (hpb_ne : pb ≠ []) (hpb_len : pb.length ≤ 255)
    (hpb_ns : ∀ c ∈ pb, isspaceChar c = false) :
    hpkpParsePinLine ('*' :: (ht ++ ' ' :: pb)) = some (ht, pb) := by
  unfold hpkpParsePinLine
  simp only []
  rw [scanString_append 31 ht (' ' :: pb) hht_ne hht_len hht_ns
    (space_head_isspace _)]
  have h2 : scanString 255 (' ' :: pb) = some (pb, []) := by
    rw [scanString_cons_space]
    have := scanString_append 255 pb [] hpb_ne hpb_len hpb_ns
      (fun c hc => by cases hc)
    simpa using this
  simp only [h2]

/-- A well-formed pin as `wget_hpkp_pin_add` built it from a persisted
line: short space-free tokens and decode-consistent bytes. -/
def goodPin (b64decode : List Char → List Nat) (p : wget_hpkp_pin_t) : Prop :=
  p.hash_type ≠ [] ∧ p.hash_type.length ≤ 31 ∧
  (∀ c ∈ p.hash_type, isspaceChar c = false) ∧
  p.pin_b64 ≠ [] ∧ p.pin_b64.length ≤ 255 ∧
  (∀ c ∈ p.pin_b64, isspaceChar c = false) ∧
  p.pin = b64decode p.pin_b64 ∧ p.pinsize = (b64decode p.pin_b64).length

/-- A live, well-formed HPKP entry: plain short hostname, in-range
consistent timestamps, not expired, and a non-empty duplicate-free pin
set of well-formed pins. -/
def goodHpkpEntry (b64decode : List Char → List Nat) (e : wget_hpkp_t)
    (now : Int) : Prop :=
  e.host ≠ [] ∧ e.host.length ≤ 255 ∧
  (∀ c ∈ e.host, isspaceChar c = false) ∧
  (e.host.head? ≠ some '#' ∧ e.host.head? ≠ some '*') ∧
  0 ≤ e.created ∧ e.created < INT64_MAX_HALF ∧
  0 < e.maxage ∧ e.maxage < INT64_MAX_HALF ∧
  e.expires = e.created + e.maxage ∧ now ≤ e.expires ∧
  e.pins ≠ [] ∧
  e.pins.Pairwise (fun a b => _compare_pin a b ≠ 0) ∧
  (∀ p ∈ e.pins, goodPin b64decode p)

/-- The host line `_hpkp_save` writes for a live entry. -/
def hpkpHostLine (e : wget_hpkp_t) : List Char :=
  e.host ++ ' ' :: (if e.include_subdomains then '1' else '0') :: ' ' ::
    (intToDec e.created ++ ' ' :: intToDec e.maxage)

theorem hpkp_save_block (now : Int) (e : wget_hpkp_t)
    (hpins : e.pins ≠ []) (hlive : ¬(e.expires < now)) :
    _hpkp_save now e = hpkpHostLine e :: e.pins.map _hpkp_save_pin := by
  unfold _hpkp_save hpkpHostLine
  rw [if_neg (by simpa [List.length_eq_zero] using hpins), if_neg hlive]

theorem hpkp_step_hostline (b64decode : List Char → List Nat) (now : Int)
    (st : List wget_hpkp_t × Option wget_hpkp_t) (e : wget_hpkp_t)
    (hg : goodHpkpEntry b64decode e now) :
    hpkpLoadStep b64decode now st (hpkpHostLine e) =
      (wget_hpkp_db_add_opt st.1 st.2, some { e with pins := [] }) := by
  obtain ⟨hne, hlen, hns, hhead0, hcr1, hcr2, hm1, hm2, hexp, hlive, -, -, -⟩ := hg
  have hhead : ∀ c, e.host.head? = some c → c ≠ '#' ∧ c ≠ '*' := fun c hc => by
    constructor
    · intro hceq
      rw [hceq] at hc
      exact hhead0.1 hc
    · intro hceq
      rw [hceq] at hc
      exact hhead0.2 hc
  obtain ⟨hcH, htH, hhostEq⟩ : ∃ c t, e.host = c :: t := by
    cases h : e.host with
    | nil => exact absurd h hne
    | cons c t => exact ⟨c, t, rfl⟩
  have hicN : natToDec (if e.include_subdomains then 1 else 0) =
      [(if e.include_subdomains then '1' else '0' : Char)] := by
    rw [natToDec_digit (by cases e.include_subdomains <;> norm_num)]
    cases e.include_subdomains <;> decide
  have hline : hpkpHostLine e =
      e.host ++ ' ' :: (natToDec (if e.include_subdomains then 1 else 0) ++ ' ' ::
        (natToDec e.created.toNat ++ ' ' :: natToDec e.maxage.toNat)) := by
    unfold hpkpHostLine
    rw [hicN, intToDec_nonneg hcr1, intToDec_nonneg (le_of_lt hm1)]
    simp
  have hcons : e.host ++ ' ' :: (natToDec (if e.include_subdomains then 1 else 0) ++ ' ' ::
      (natToDec e.created.toNat ++ ' ' :: natToDec e.maxage.toNat)) =
      hcH :: (htH ++ ' ' :: (natToDec (if e.include_subdomains then 1 else 0) ++ ' ' ::
        (natToDec e.created.toNat ++ ' ' :: natToDec e.maxage.toNat))) := by
    rw [hhostEq, List.cons_append]
  have hcns : isspaceChar hcH = false :=
    hns hcH (by rw [hhostEq]; exact List.mem_cons_self _ _)
  have hchead := hhead hcH (by rw [hhostEq]; rfl)
  have hparse := hpkpParseHostLine_fields e.host
    (if e.include_subdomains then 1 else 0) e.created.toNat e.maxage.toNat
    hne hlen hns
  unfold hpkpLoadStep
  rw [hline, hcons]
  rw [dropWhile_of_head_false _ _ (fun x hx => by
    simp only [List.head?_cons, Option.some.injEq] at hx
    subst hx
    exact hcns)]
  simp only [if_neg hchead.1, if_pos hchead.2]
  rw [← hcons, hparse]
  have hcast_cr : ((e.created.toNat : Int)) = e.created := Int.toNat_of_nonneg hcr1
  have hcast_ma : ((e.maxage.toNat : Int)) = e.maxage :=
    Int.toNat_of_nonneg (le_of_lt hm1)
  have hclamp : ¬(e.created < 0 ∨ e.maxage < 0 ∨
      e.created ≥ INT64_MAX_HALF ∨ e.maxage ≥ INT64_MAX_HALF) := by
    simp only [INT64_MAX_HALF] at hcr2 hm2 ⊢
    omega
  have hcond : ¬(e.maxage = 0) ∧ e.created + e.maxage ≥ now := by
    constructor
    · omega
    · rw [← hexp]
      omega
  have hinc : decide ((((if e.include_subdomains then 1 else 0 : Nat)) : Int) ≠ 0) =
      e.include_subdomains := by
    cases e.include_subdomains <;> decide
  simp only [hcast_cr, hcast_ma, hclamp, if_false, ite_false, hinc, ne_eq]
  rw [if_pos hcond]
  rw [← hexp]

theorem hpkp_step_pinline (b64decode : List Char → List Nat) (now : Int)
    (store : List wget_hpkp_t) (cur : wget_hpkp_t) (p : wget_hpkp_pin_t)
    (hg : goodPin b64decode p)
    (hdup : ∀ q ∈ cur.pins, _compare_pin q p ≠ 0) :
    hpkpLoadStep b64decode now (store, some cur) (_hpkp_save_pin p) =
      (store, some { cur with pins := cur.pins ++ [p] }) := by
  obtain ⟨h1, h2, h3, h4, h5, h6, h7, h8⟩ := hg
  have hparse := hpkpParsePinLine_fields p.hash_type p.pin_b64 h1 h2 h3 h4 h5 h6
  unfold hpkpLoadStep _hpkp_save_pin
  rw [dropWhile_of_head_false _ _ (fun x hx => by
    simp only [List.head?_cons, Option.some.injEq] at hx
    subst hx
    rfl)]
  simp only [if_neg (by decide : ¬('*' : Char) = '#'),
    if_neg (by simp : ¬('*' : Char) ≠ '*'), hparse]
  have hpin_eq : ({ pin_b64 := p.pin_b64
                    pin := b64decode p.pin_b64
                    hash_type := p.hash_type
                    pinsize := (b64decode p.pin_b64).length } : wget_hpkp_pin_t) = p := by
    rw [← h8, ← h7]
  have hany : (cur.pins.any fun q => decide (_compare_pin q p = 0)) = false := by
    rw [List.any_eq_false]
    intro q hq
    simpa using hdup q hq
  unfold wget_hpkp_pin_add wget_vector_add_noalloc
  simp only [hpin_eq, hany, Bool.false_eq_true, if_false]

theorem hpkp_pin_lines_fold (b64decode : List Char → List Nat) (now : Int)
    (store : List wget_hpkp_t) (e : wget_hpkp_t) :
    ∀ (ps done : List wget_hpkp_pin_t),
      ((done ++ ps).Pairwise (fun a b => _compare_pin a b ≠ 0)) →
      (∀ p ∈ ps, goodPin b64decode p) →
      (ps.map _hpkp_save_pin).foldl (hpkpLoadStep b64decode now)
        (store, some { e with pins := done }) =
        (store, some { e with pins := done ++ ps }) := by
  intro ps
  induction ps with
  | nil =>
    intro done _ _
    simp
  | cons p pt ih =>
    intro done hpair hgood
    have hdup : ∀ q ∈ done, _compare_pin q p ≠ 0 := fun q hq =>
      (List.pairwise_append.mp hpair).2.2 q hq p (List.mem_cons_self _ _)
    have hstep := hpkp_step_pinline b64decode now store
      { e with pins := done } p (hgood p (List.mem_cons_self _ _))
      (by simpa using hdup)
    rw [List.map_cons, List.foldl_cons, hstep]
    have hpair2 : ((done ++ [p]) ++ pt).Pairwise
        (fun a b => _compare_pin a b ≠ 0) := by
      rw [List.append_assoc, List.singleton_append]
      exact hpair
    have := ih (done ++ [p]) hpair2
      (fun q hq => hgood q (List.mem_cons_of_mem _ hq))
    rw [this, List.append_assoc, List.singleton_append]

/-- `optList` turns the pending record into its entry-list contribution. -/
def optList : Option wget_hpkp_t → List wget_hpkp_t
  | none => []
  | some e => [e]

theorem hpkp_flush (b64decode : List Char → List Nat) (now : Int)
    (pre : List wget_hpkp_t) (cur : Option wget_hpkp_t)
    (hu : hpkpKeysUnique (pre ++ optList cur))
    (hg : ∀ e ∈ optList cur, goodHpkpEntry b64decode e now) :
    wget_hpkp_db_add_opt pre cur = pre ++ optList cur := by
  cases cur with
  | none => simp [wget_hpkp_db_add_opt, optList]
  | some e =>
    have hge := hg e (by simp [optList])
    obtain ⟨-, -, -, -, -, -, hm1, -, -, -, hpins, -, -⟩ := hge
    have hget : wget_hashmap_get_hpkp pre e = none := by
      apply hpkp_get_eq_none
      intro q hq
      exact (List.pairwise_append.mp hu).2.2 q hq e (by simp [optList])
    unfold wget_hpkp_db_add_opt impl_hpkp_db_add
    simp only []
    rw [if_neg (by
      rintro (h | h)
      · omega
      · exact hpins (List.length_eq_zero.mp h))]
    rw [hget]
    simp [optList]

theorem hpkp_load_save_fold (b64decode : List Char → List Nat) (now : Int) :
    ∀ (rest pre : List wget_hpkp_t) (cur : Option wget_hpkp_t),
      hpkpKeysUnique (pre ++ (optList cur ++ rest)) →
      (∀ e ∈ optList cur ++ rest, goodHpkpEntry b64decode e now) →
      wget_hpkp_db_add_opt
        (((rest.map (_hpkp_save now)).flatten).foldl
          (hpkpLoadStep b64decode now) (pre, cur)).1
        (((rest.map (_hpkp_save now)).flatten).foldl
          (hpkpLoadStep b64decode now) (pre, cur)).2 =
      pre ++ (optList cur ++ rest) := by
  intro rest
  induction rest with
  | nil =>
    intro pre cur hu hg
    simp only [List.map_nil, List.flatten_nil, List.foldl_nil]
    have := hpkp_flush b64decode now pre cur (by simpa using hu)
      (fun e he => hg e (by simpa using he))
    simpa using this
  | cons e rest ih =>
    intro pre cur hu hg
    have hge : goodHpkpEntry b64decode e now := hg e (by simp)
    obtain ⟨-, -, -, -, -, -, -, -, -, hlive, hpins, hpair, hpgood⟩ :=
      hg e (by simp)
    have hblock := hpkp_save_block now e hpins (by omega)
    rw [List.map_cons, List.flatten_cons, hblock, List.cons_append,
      List.foldl_cons, List.foldl_append]
    rw [hpkp_step_hostline b64decode now (pre, cur) e hge]
    have hpinfold := hpkp_pin_lines_fold b64decode now
      (wget_hpkp_db_add_opt pre cur) e e.pins [] (by simpa using hpair) hpgood
    rw [hpinfold]
    have hepins : ({ e with pins := [] ++ e.pins } : wget_hpkp_t) = e := by
      simp
    rw [hepins]
    have hflush : wget_hpkp_db_add_opt pre cur = pre ++ optList cur := by
      apply hpkp_flush b64decode now pre cur
      · have hsub : List.Sublist (pre ++ optList cur)
            (pre ++ (optList cur ++ (e :: rest))) := by
          rw [← List.append_assoc]
          exact List.sublist_append_left _ _
        exact hu.sublist hsub
      · intro x hx
        exact hg x (List.mem_append.mpr (Or.inl hx))
    rw [hflush]
    have hu2 : hpkpKeysUnique ((pre ++ optList cur) ++ (optList (some e) ++ rest)) := by
      have hrearr : (pre ++ optList cur) ++ (optList (some e) ++ rest) =
          pre ++ (optList cur ++ (e :: rest)) := by
        simp [optList, List.append_assoc]
      rw [hrearr]
      exact hu
    have hg2 : ∀ x ∈ optList (some e) ++ rest, goodHpkpEntry b64decode x now := by
      intro x hx
      apply hg
      rcases List.mem_append.mp hx with h | h
      · rw [show optList (some e) = [e] from rfl, List.mem_singleton] at h
        subst h
        exact List.mem_append.mpr (Or.inr (List.mem_cons_self _ _))
      · exact List.mem_append.mpr (Or.inr (List.mem_cons_of_mem _ h))
    have hih := ih (pre ++ optList cur) (some e) hu2 hg2
    rw [hih]
    simp [optList, List.append_assoc]

/-- C8: saving all-live stores through the save line formatters and
parsing the text back through the load line loops into fresh stores
reproduces the entry lists exactly — same keys and, per key, the same
created, maxage, expires, include_subdomains, port and pin sets, with
timestamps preserved exactly. -/
theorem C8_save_load_roundtrip :
    (∀ (entries : List wget_hsts_t) (now : Int),
      hstsKeysUnique entries → (∀ e ∈ entries, goodHstsEntry e now) →
      _hsts_db_load_lines [] (_hsts_db_save_lines entries) now = entries) ∧
    (∀ (b64decode : List Char → List Nat) (entries : List wget_hpkp_t)
        (now : Int),
      hpkpKeysUnique entries →
      (∀ e ∈ entries, goodHpkpEntry b64decode e now) →
      _hpkp_db_load_lines b64decode [] (_hpkp_db_save_lines now entries) now =
        entries) := by
  constructor
  · intro entries now hu hg
    cases entries with
    | nil => rfl
    | cons e rest =>
      unfold _hsts_db_save_lines
      rw [if_pos (by simp)]
      rw [hsts_load_skip _ _ _ _ (by rfl), hsts_load_skip _ _ _ _ (by rfl),
        hsts_load_skip _ _ _ _ (by rfl)]
      have := hsts_load_save_fold now (e :: rest) [] (by simpa using hu) hg
      simpa using this
  · intro b64decode entries now hu hg
    cases entries with
    | nil => rfl
    | cons e rest =>
      unfold _hpkp_db_save_lines
      rw [if_pos (by simp)]
      simp only [_hpkp_db_load_lines]
      rw [List.foldl_cons, List.foldl_cons, List.foldl_cons, List.foldl_cons]
      rw [show hpkpLoadStep b64decode now ([], none)
          ("# HPKP 1.0 file".toList) = ([], none) from rfl]
      rw [show hpkpLoadStep b64decode now ([], none)
          ("#Generated by Wget2. Edit at your own risk.".toList) = ([], none) from rfl]
      rw [show hpkpLoadStep b64decode now ([], none)
          ("#<hostname> <incl. subdomains> <created> <max-age>".toList) = ([], none) from rfl]
      rw [show hpkpLoadStep b64decode now ([], none) ([] : List Char) = ([], none) from rfl]
      have := hpkp_load_save_fold b64decode now (e :: rest) [] none
        (by simpa [optList] using hu) (by simpa [optList] using hg)
      simpa [optList] using this

/-- C8 witness: one concrete live entry survives the HSTS round trip. -/
theorem C8_save_load_roundtrip_witness :
    _hsts_db_load_lines []
      (_hsts_db_save_lines
        [{ host := "example.org".toList, expires := 1100, created := 100,
           maxage := 1000, port := 443, include_subdomains := true }]) 0 =
      [{ host := "example.org".toList, expires := 1100, created := 100,
         maxage := 1000, port := 443, include_subdomains := true }] := by
  apply C8_save_load_roundtrip.1
  · simp
  · intro e he
    rw [List.mem_singleton] at he
    subst he
    exact ⟨by decide, by decide, by decide, by decide, by decide, by decide,
      by decide, by decide, by decide, by decide, by decide⟩

/-! ## Load error handling -/

theorem hsts_load_lines_skipped (now : Int) :
    ∀ (lines : List (List Char)) (entries : List wget_hsts_t),
      (∀ l ∈ lines, hstsParseLine l now = none) →
      _hsts_db_load_lines entries lines now = entries := by
  intro lines
  induction lines with
  | nil =>
    intro entries _
    rfl
  | cons l ls ih =>
    intro entries h
    unfold _hsts_db_load_lines
    rw [List.foldl_cons]
    simp only [h l (List.mem_cons_self _ _)]
    exact ih entries (fun x hx => h x (List.mem_cons_of_mem _ hx))

/-- A line the HPKP load loop would skip with no record pending: blank,
comment, pin line (ignored without a pending record), unparsable host
line, or a host line whose record is clamped to zero maxage or already
expired. -/
def hpkpLineNonInserting (line : List Char) (now : Int) : Prop :=
  match line.dropWhile isspaceChar with
  | [] => True
  | c :: lrest =>
    c = '#' ∨ c = '*' ∨
    (match hpkpParseHostLine (c :: lrest) with
     | none => True
     | some (_, _, created, maxage) =>
       ¬((if created < 0 ∨ maxage < 0 ∨ created ≥ INT64_MAX_HALF ∨
           maxage ≥ INT64_MAX_HALF then 0 else maxage) ≠ 0 ∧
         created + (if created < 0 ∨ maxage < 0 ∨ created ≥ INT64_MAX_HALF ∨
           maxage ≥ INT64_MAX_HALF then 0 else maxage) ≥ now))

theorem hpkp_step_noninserting (b64decode : List Char → List Nat) (now : Int)
    (entries : List wget_hpkp_t) (line : List Char)
    (h : hpkpLineNonInserting line now) :
    hpkpLoadStep b64decode now (entries, none) line = (entries, none) := by
  unfold hpkpLineNonInserting at h
  unfold hpkpLoadStep
  cases hdrop : line.dropWhile isspaceChar with
  | nil => rfl
  | cons c lrest =>
    rw [hdrop] at h
    simp only [] at h
    by_cases hc1 : c = '#'
    · simp [hc1]
    · by_cases hc2 : c = '*'
      · simp only [if_neg hc1, if_neg (by simp [hc2] : ¬(c ≠ '*'))]
      · have h3 := (h.resolve_left hc1).resolve_left hc2
        simp only [if_neg hc1, if_pos hc2]
        cases hp : hpkpParseHostLine (c :: lrest) with
        | none => rfl
        | some v =>
          obtain ⟨host, incl, created, maxage⟩ := v
          rw [hp] at h3
          simp only [] at h3
          simp only [if_neg h3]
          rfl
  
theorem hpkp_fold_skipped (b64decode : List Char → List Nat) (now : Int) :
    ∀ (lines : List (List Char)) (entries : List wget_hpkp_t),
      (∀ l ∈ lines, hpkpLineNonInserting l now) →
      lines.foldl (hpkpLoadStep b64decode now) (entries, none) =
        (entries, none) := by
  intro lines
  induction lines with
  | nil =>
    intro entries _
    rfl
  | cons l ls ih =>
    intro entries h
    rw [List.foldl_cons,
      hpkp_step_noninserting b64decode now entries l (h l (List.mem_cons_self _ _))]
    exact ih entries (fun x hx => h x (List.mem_cons_of_mem _ hx))

theorem hpkp_load_lines_skipped (b64decode : List Char → List Nat) (now : Int)
    (lines : List (List Char)) (entries : List wget_hpkp_t)
    (h : ∀ l ∈ lines, hpkpLineNonInserting l now) :
    _hpkp_db_load_lines b64decode entries lines now = entries := by
  simp only [_hpkp_db_load_lines, hpkp_fold_skipped b64decode now lines entries h]
  rfl

/-- C9: for both loads, a stream error after reading resets the cached
modification time to 0 and reports -1; without a stream error the load
reports 0 whatever the lines contained; an unchanged mtime short-cuts to
success without touching the store; and a file of only skipped lines
(blank, comment, malformed, expired, orphan pins) inserts nothing. -/
theorem C9_load_error_handling :
    (∀ (db : _hsts_db_impl_t) (mtime : Int) (lines : List (List Char))
        (err : Bool) (now : Int),
      (mtime ≠ db.load_time → err = true →
        (_hsts_db_load db mtime lines err now).2 = -1 ∧
        (_hsts_db_load db mtime lines err now).1.load_time = 0) ∧
      (err = false → (_hsts_db_load db mtime lines err now).2 = 0) ∧
      (mtime = db.load_time → _hsts_db_load db mtime lines err now = (db, 0)) ∧
      ((∀ l ∈ lines, hstsParseLine l now = none) →
        (_hsts_db_load db mtime lines err now).1.entries = db.entries)) ∧
    (∀ (b64decode : List Char → List Nat) (db : _hpkp_db_impl_t) (mtime : Int)
        (lines : List (List Char)) (err : Bool) (now : Int),
      (mtime ≠ db.load_time → err = true →
        (_hpkp_db_load b64decode db mtime lines err now).2 = -1 ∧
        (_hpkp_db_load b64decode db mtime lines err now).1.load_time = 0) ∧
      (err = false →
        (_hpkp_db_load b64decode db mtime lines err now).2 = 0) ∧
      (mtime = db.load_time →
        _hpkp_db_load b64decode db mtime lines err now = (db, 0)) ∧
      ((∀ l ∈ lines, hpkpLineNonInserting l now) →
        (_hpkp_db_load b64decode db mtime lines err now).1.entries =
          db.entries)) := by
  constructor
  · intro db mtime lines err now
    refine ⟨?_, ?_, ?_, ?_⟩
    · intro hmt herr
      subst herr
      simp [_hsts_db_load, hmt]
    · intro herr
      subst herr
      by_cases hmt : mtime = db.load_time <;> simp [_hsts_db_load, hmt]
    · intro hmt
      simp [_hsts_db_load, hmt]
    · intro hskip
      by_cases hmt : mtime = db.load_time
      · simp [_hsts_db_load, hmt]
      · cases err <;>
          simp [_hsts_db_load, hmt, hsts_load_lines_skipped now lines db.entries hskip]
  · intro b64decode db mtime lines err now
    refine ⟨?_, ?_, ?_, ?_⟩
    · intro hmt herr
      subst herr
      simp [_hpkp_db_load, hmt]
    · intro herr
      subst herr
      by_cases hmt : mtime = db.load_time <;> simp [_hpkp_db_load, hmt]
    · intro hmt
      simp [_hpkp_db_load, hmt]
    · intro hskip
      by_cases hmt : mtime = db.load_time
      · simp [_hpkp_db_load, hmt]
      · cases err <;>
          simp [_hpkp_db_load, hmt,
            hpkp_load_lines_skipped b64decode now lines db.entries hskip]

/-- C9 witness: a stream error on a changed file resets the cached load
time and reports failure. -/
theorem C9_load_error_handling_witness :
    (_hsts_db_load { entries := [], load_time := 5 } 7 [] true 0).2 = -1 ∧
    (_hsts_db_load { entries := [], load_time := 5 } 7 [] true 0).1.load_time = 0 := by
  exact (C9_load_error_handling.1 { entries := [], load_time := 5 } 7 [] true 0).1
    (by decide) rfl

/-! ## Queries do not modify the store -/

/-- State-threaded `wget_hashmap_get` on the HSTS store: the primitive
receives the container by pointer and only reads it (modelled from the
spec, which treats the hashmap as an available lookup container). -/
def wget_hashmap_get_hsts_st (entries : List wget_hsts_t) (key : wget_hsts_t) :
    Option wget_hsts_t × List wget_hsts_t :=
  (wget_hashmap_get_hsts entries key, entries)

/-- State-threaded `wget_hashmap_get` on the HPKP store. -/
def wget_hashmap_get_hpkp_st (entries : List wget_hpkp_t) (key : wget_hpkp_t) :
    Option wget_hpkp_t × List wget_hpkp_t :=
  (wget_hashmap_get_hpkp entries key, entries)

/-- The subdomain loop of `impl_hsts_db_host_match` threading the store
through every lookup it performs. -/
def hstsWalkList_st (entries : List wget_hsts_t) (nport : Nat) (now : Int) :
    List (List Char) → Bool × List wget_hsts_t
  | [] => (false, entries)
  | s :: rest =>
    match wget_hashmap_get_hsts_st entries (hstsKey s nport) with
    | (some e, entries1) =>
      if e.include_subdomains ∧ now ≤ e.expires then (true, entries1)
      else hstsWalkList_st entries1 nport now rest
    | (none, entries1) => hstsWalkList_st entries1 nport now rest

/-- `impl_hsts_db_host_match` threading the store through each statement
of the C function. -/
def impl_hsts_db_host_match_st (entries : List wget_hsts_t) (host : List Char)
    (port : Nat) (now : Int) : Bool × List wget_hsts_t :=
  let nport := if port = 80 then 443 else port
  match wget_hashmap_get_hsts_st entries (hstsKey host nport) with
  | (some e, entries1) =>
    if now ≤ e.expires then (true, entries1)
    else hstsWalkList_st entries1 nport now (domainSuffixes host)
  | (none, entries1) => hstsWalkList_st entries1 nport now (domainSuffixes host)

/-- The domain walk of `impl_hpkp_db_check_pubkey` threading the store. -/
def hpkpWalk_st : List wget_hpkp_t → List Char → Bool →
    Option (wget_hpkp_t × Bool) × List wget_hpkp_t
  | entries, [], _ => (none, entries)
  | entries, c :: rest, subdomain =>
    let d := stripDots (c :: rest)
    match wget_hashmap_get_hpkp_st entries (hpkpKey d) with
    | (some e, entries1) => (some (e, subdomain), entries1)
    | (none, entries1) => hpkpWalk_st entries1 (strchrnulDot d) true
termination_by _ domain _ => domain.length
decreasing_by
  simp only [List.length_cons]
  exact walk_measure c rest

/-- `impl_hpkp_db_check_pubkey` threading the store through each
statement of the C function. -/
def impl_hpkp_db_check_pubkey_st (hashFast : List Nat → Option (List Nat))
    (entries : List wget_hpkp_t) (host : List Char) (pubkey : List Nat) :
    Int × List wget_hpkp_t :=
  match hpkpWalk_st entries host false with
  | (none, entries1) => (0, entries1)
  | (some (hpkp, subdomain), entries1) =>
    if subdomain ∧ ¬hpkp.include_subdomains then (0, entries1)
    else
      match hashFast pubkey with
      | none => (-1, entries1)
      | some digest =>
        let pinkey : wget_hpkp_pin_t :=
          { pin := digest, pinsize := sha256_digest_len,
            hash_type := sha256_type, pin_b64 := [] }
        if wget_vector_find hpkp.pins pinkey ≠ -1 then (1, entries1)
        else (-2, entries1)

theorem hstsWalkList_st_spec (nport : Nat) (now : Int) :
    ∀ (suffixes : List (List Char)) (entries : List wget_hsts_t),
      (hstsWalkList_st entries nport now suffixes).2 = entries ∧
      (hstsWalkList_st entries nport now suffixes).1 =
        suffixes.any (fun s =>
          match wget_hashmap_get_hsts entries (hstsKey s nport) with
          | some e => e.include_subdomains && decide (now ≤ e.expires)
          | none => false) := by
  intro suffixes
  induction suffixes with
  | nil =>
    intro entries
    exact ⟨rfl, rfl⟩
  | cons s rest ih =>
    intro entries
    rw [hstsWalkList_st, List.any_cons]
    unfold wget_hashmap_get_hsts_st
    cases hget : wget_hashmap_get_hsts entries (hstsKey s nport) with
    | some e =>
      simp only []
      by_cases hc : e.include_subdomains ∧ now ≤ e.expires
      · have hb : (e.include_subdomains && decide (now ≤ e.expires)) = true := by
          simp [hc.1, hc.2]
        simp [if_pos hc, hb]
      · have hb : (e.include_subdomains && decide (now ≤ e.expires)) = false := by
          rcases not_and_or.mp hc with h | h
          · simp [Bool.eq_false_iff.mpr h]
          · simp [decide_eq_false h]
        rw [if_neg hc, hb, Bool.false_or]
        exact ih entries
    | none =>
      simp only []
      rw [Bool.false_or]
      exact ih entries

theorem hpkpWalk_st_spec (entries : List wget_hpkp_t) (domain : List Char)
    (sub : Bool) :
    (hpkpWalk_st entries domain sub).2 = entries ∧
    (hpkpWalk_st entries domain sub).1 = hpkpDomainWalk entries domain sub := by
  match domain with
  | [] =>
    rw [hpkpWalk_st, hpkpDomainWalk]
    exact ⟨rfl, rfl⟩
  | c :: rest =>
    rw [hpkpWalk_st, hpkpDomainWalk]
    unfold wget_hashmap_get_hpkp_st
    cases hget : wget_hashmap_get_hpkp entries (hpkpKey (stripDots (c :: rest))) with
    | some e => exact ⟨rfl, rfl⟩
    | none =>
      simp only []
      exact hpkpWalk_st_spec entries (strchrnulDot (stripDots (c :: rest))) true
termination_by domain.length
decreasing_by
  simp only [List.length_cons]
  exact walk_measure c rest

/-- C10: `host_match` and `check_pubkey`, with the store threaded through
every container operation they perform, return the store exactly as it
was — same entry list (hence same size), every entry with all its fields
and pins intact, expired entries included — and compute the same results
as the direct reading of the C code. -/
theorem C10_queries_pure (entries : List wget_hsts_t)
    (hentries : List wget_hpkp_t) (hashFast : List Nat → Option (List Nat))
    (host : List Char) (port : Nat) (now : Int) (pubkey : List Nat) :
    (impl_hsts_db_host_match_st entries host port now).2 = entries ∧
    (impl_hsts_db_host_match_st entries host port now).1 =
      impl_hsts_db_host_match entries host port now ∧
    (impl_hsts_db_host_match_st entries host port now).2.length =
      entries.length ∧
    (impl_hpkp_db_check_pubkey_st hashFast hentries host pubkey).2 = hentries ∧
    (impl_hpkp_db_check_pubkey_st hashFast hentries host pubkey).1 =
      impl_hpkp_db_check_pubkey hashFast hentries host pubkey ∧
    (impl_hpkp_db_check_pubkey_st hashFast hentries host pubkey).2.length =
      hentries.length := by
  have hsts2 : (impl_hsts_db_host_match_st entries host port now).2 = entries ∧
      (impl_hsts_db_host_match_st entries host port now).1 =
        impl_hsts_db_host_match entries host port now := by
    simp only [impl_hsts_db_host_match_st, impl_hsts_db_host_match,
      wget_hashmap_get_hsts_st]
    cases hget : wget_hashmap_get_hsts entries
        (hstsKey host (if port = 80 then 443 else port)) with
    | some e =>
      simp only []
      by_cases hc : now ≤ e.expires
      · simp [hc]
      · have hwalk := hstsWalkList_st_spec (if port = 80 then 443 else port) now
          (domainSuffixes host) entries
        simp only [if_neg hc]
        refine ⟨hwalk.1, ?_⟩
        rw [hwalk.2]
        simp [hc]
    | none =>
      simp only []
      have hwalk := hstsWalkList_st_spec (if port = 80 then 443 else port) now
        (domainSuffixes host) entries
      refine ⟨hwalk.1, ?_⟩
      rw [hwalk.2]
      simp
  have hpkp2 : (impl_hpkp_db_check_pubkey_st hashFast hentries host pubkey).2 =
      hentries ∧
      (impl_hpkp_db_check_pubkey_st hashFast hentries host pubkey).1 =
        impl_hpkp_db_check_pubkey hashFast hentries host pubkey := by
    have hwalk := hpkpWalk_st_spec hentries host false
    unfold impl_hpkp_db_check_pubkey_st impl_hpkp_db_check_pubkey
    cases hw : hpkpWalk_st hentries host false with
    | mk res st =>
      rw [hw] at hwalk
      rw [← hwalk.2]
      simp only []
      cases res with
      | none => exact ⟨hwalk.1, rfl⟩
      | some v =>
        obtain ⟨hpkp, subdomain⟩ := v
        simp only []
        by_cases hc : subdomain ∧ ¬hpkp.include_subdomains
        · simp only [if_pos hc]
          exact ⟨hwalk.1, trivial⟩
        · simp only [if_neg hc]
          cases hhash : hashFast pubkey with
          | none => exact ⟨hwalk.1, rfl⟩
          | some digest =>
            simp only []
            by_cases hfind : wget_vector_find hpkp.pins
                { pin := digest, pinsize := sha256_digest_len,
                  hash_type := sha256_type, pin_b64 := [] } ≠ -1
            · simp only [if_pos hfind]
              exact ⟨hwalk.1, trivial⟩
            · simp only [if_neg hfind]
              exact ⟨hwalk.1, trivial⟩
  refine ⟨hsts2.1, hsts2.2, by rw [hsts2.1], hpkp2.1, hpkp2.2, by rw [hpkp2.1]⟩
